import Mathlib

/-!
# Watchman: partitioner and v2 search request adapter

A shallow embedding of `internal/indices/indices.go` (`New`), of
`internal/search/api_search.go` (the v2 search handler and its query readers)
and of `getDataRefreshInterval` from `cmd/server/main.go`, followed by the
properties proved about them.

Go `int` values are modelled by `Int`; where a value could leave the 64-bit
range the wrap-around is written explicitly. Go strings are byte sequences and
are modelled by `List UInt8`.
-/

namespace indices

/-- The `for i := 0; i < groups-1; i++` loop of `New`, run for `n` more
iterations from the state `(pos, remaining, xs)`. Each iteration advances `pos`
by `chunkSize`, by one more while `remaining > 0`, and appends `pos` to `xs`.
`pos` never exceeds `total`, so no 64-bit overflow can occur. -/
def newLoop (chunkSize : Int) : Nat → Int → Int → List Int → List Int
  | 0, _, _, xs => xs
  | n + 1, pos, remaining, xs =>
    let pos1 := pos + chunkSize
    if remaining > 0 then
      newLoop chunkSize n (pos1 + 1) (remaining - 1) (xs ++ [pos1 + 1])
    else
      newLoop chunkSize n pos1 remaining (xs ++ [pos1])

/-- `New(total, groups)`: slice indices for parallel processing. Go's `/` and
`%` truncate toward zero (`Int.tdiv`, `Int.tmod`). -/
def New (total groups : Int) : List Int :=
  if groups ≤ 0 then [0, total]
  else if groups = 1 ∨ groups ≥ total then [0, total]
  else
    let chunkSize := Int.tdiv total groups
    let remaining := Int.tmod total groups
    newLoop chunkSize (groups - 1).toNat 0 remaining [0] ++ [total]

/-- Sizes of the consecutive half-open ranges `[b_i, b_{i+1})` described by a
boundary list. -/
def sizes (bs : List Int) : List Int :=
  List.zipWith (fun a b => b - a) bs bs.tail

/-- Closed form of the `i`-th boundary for `1 < groups < total`:
`i * q + min i r` with `q = total / groups`, `r = total % groups`. -/
def bnd (q r : Int) (i : Nat) : Int := (i : Int) * q + min (i : Int) r

end indices

namespace search

/-- A Go string: a sequence of bytes. -/
abbrev GoString := List UInt8

/-- The bytes of a string literal (its UTF-8 encoding). -/
def str (s : String) : GoString := s.toUTF8.data.toList

/-- `url.Values`, a `map[string][]string`: indexing a missing key yields the
empty slice. -/
abbrev Values := GoString → List GoString

/-- The map holding the given key/value-list pairs (first binding of a key
wins) and nothing else. -/
def Values.ofList (kvs : List (GoString × List GoString)) : Values :=
  fun key => ((kvs.find? (fun kv => kv.1 == key)).map (fun kv => kv.2)).getD []

/-- `Values.Get`: the first value associated with the key, or `""`. -/
def Values.Get (v : Values) (key : GoString) : GoString :=
  match v key with
  | [] => []
  | x :: _ => x

/-- An incoming `*http.Request`, reduced to what the handler reads:
`r.URL.Query()`. -/
structure Request where
  query : Values

/-! ### `strconv` integer parsing (Go standard library, 64-bit platform) -/

/-- The two sentinel errors of `strconv`. -/
inductive ErrKind where
  | ErrSyntax
  | ErrRange
  deriving DecidableEq, Repr

/-- `*strconv.NumError`. -/
structure NumError where
  Func : GoString
  Num : GoString
  Err : ErrKind
  deriving DecidableEq

/-- `'0' <= c && c <= '9'`. -/
def isDigitByte (c : UInt8) : Bool := 48 ≤ c.toNat && c.toNat ≤ 57

/-- `maxUint64`. -/
def maxUint64 : Nat := 2 ^ 64 - 1

/-- `c - '0'` for a digit byte `c`. -/
def digitVal (c : UInt8) : Nat := c.toNat - 48

/-- Arithmetic on `uint64` wraps around modulo `2^64`. -/
def wrap64 (x : Nat) : Nat := x % 2 ^ 64

/-- The cutoff of `ParseUint` for base 10: the smallest number such that
`cutoff*10 > maxUint64`. -/
def cutoff10 : Nat := maxUint64 / 10 + 1

/-- The digit loop of `strconv.ParseUint` for base 10, with accumulator `n`
(a `uint64`). A byte that is not a decimal digit
ends in the syntax error with value 0 (a letter yields a digit `>= base`, `_`
and everything else reach the `default` case). On overflow the loop returns
`maxVal` at once, without looking at the remaining bytes. -/
def parseUintLoop (maxVal : Nat) : GoString → Nat → Nat × Option ErrKind
  | [], n => (n, none)
  | c :: cs, n =>
    if isDigitByte c then
      let d := digitVal c
      if n ≥ cutoff10 then (maxVal, some ErrKind.ErrRange)
      else
        let n10 := wrap64 (n * 10)
        let n1 := wrap64 (n10 + d)
        if n1 < n10 ∨ n1 > maxVal then (maxVal, some ErrKind.ErrRange)
        else parseUintLoop maxVal cs n1
    else (0, some ErrKind.ErrSyntax)

/-- `strconv.ParseUint(s, 10, bitSize)`; `bitSize = 0` means `IntSize = 64`.
Returns the value and the kind of error, if any. -/
def ParseUint (s : GoString) (bitSize : Nat) : Nat × Option ErrKind :=
  if s = [] then (0, some ErrKind.ErrSyntax)
  else
    let bitSize := if bitSize = 0 then 64 else bitSize
    parseUintLoop (2 ^ bitSize - 1) s 0

/-- `strconv.ParseInt(s, 10, bitSize)`: the value (an `int64`) and the error. -/
def ParseInt (s : GoString) (bitSize : Nat) : Int × Option NumError :=
  match s with
  | [] => (0, some ⟨str "ParseInt", s, ErrKind.ErrSyntax⟩)
  | c :: cs =>
    let neg := c = 45
    let body := if c = 43 ∨ c = 45 then cs else s
    match ParseUint body bitSize with
    | (_, some ErrKind.ErrSyntax) => (0, some ⟨str "ParseInt", s, ErrKind.ErrSyntax⟩)
    | (un, _) =>
      let bitSize := if bitSize = 0 then 64 else bitSize
      let cutoff : Nat := 2 ^ (bitSize - 1)
      if ¬ neg ∧ un ≥ cutoff then
        (((cutoff - 1 : Nat) : Int), some ⟨str "ParseInt", s, ErrKind.ErrRange⟩)
      else if neg ∧ un > cutoff then
        (-((cutoff : Nat) : Int), some ⟨str "ParseInt", s, ErrKind.ErrRange⟩)
      else
        let n : Int := (un : Int)
        (if neg then -n else n, none)

/-- The byte `c - '0'`, computed modulo 256. -/
def subZero (c : UInt8) : Nat := (c.toNat + 256 - 48) % 256

/-- The loop of the fast path of `strconv.Atoi`: `ch -= '0'` wraps around in a
byte, so `ch > 9` exactly for the bytes that are not decimal digits. Returns
`none` on the syntax error. -/
def atoiFastLoop : GoString → Int → Option Int
  | [], n => some n
  | c :: cs, n =>
    let ch := subZero c
    if ch > 9 then none else atoiFastLoop cs (n * 10 + (ch : Int))

/-- `strconv.Atoi(s)` where `int` has 64 bits: strings of 1 to 18 bytes take
the fast path, all others go through `ParseInt(s, 10, 0)`. -/
def Atoi (s : GoString) : Int × Option NumError :=
  if 0 < s.length ∧ s.length < 19 then
    match s with
    | [] => (0, some ⟨str "Atoi", s, ErrKind.ErrSyntax⟩)
    | c :: cs =>
      let body := if c = 45 ∨ c = 43 then cs else s
      if (c = 45 ∨ c = 43) ∧ body.length < 1 then
        (0, some ⟨str "Atoi", s, ErrKind.ErrSyntax⟩)
      else
        match atoiFastLoop body 0 with
        | none => (0, some ⟨str "Atoi", s, ErrKind.ErrSyntax⟩)
        | some n => (if c = 45 then -n else n, none)
  else
    match ParseInt s 0 with
    | (i64, some e) => (i64, some { e with Func := str "Atoi" })
    | (i64, none) => (i64, none)

/-! ### Query readers of `api_search.go` -/

/-- `softResultsLimit`. -/
def softResultsLimit : Int := 10

/-- `hardResultsLimit`. -/
def hardResultsLimit : Int := 100

/-- `extractSearchLimit`: the error of `Atoi` is discarded, only its value is
used. -/
def extractSearchLimit (r : Request) : Int :=
  let limit := softResultsLimit
  let v := r.query.Get (str "limit")
  let limit :=
    if v ≠ [] then
      let n := (Atoi v).1
      if n > 0 then n else limit
    else limit
  if limit > hardResultsLimit then hardResultsLimit else limit

/-! ### Reference notions for decimal integers (used to state properties) -/

/-- The number denoted by the decimal digits `s`, continuing from `n`. -/
def decimalFrom (n : Nat) : GoString → Nat
  | [] => n
  | c :: cs => decimalFrom (n * 10 + digitVal c) cs

/-- The number denoted by a string of decimal digits. -/
def decimalValue (s : GoString) : Nat := decimalFrom 0 s

/-- The string without its leading `+` or `-`, if it has one. -/
def unsignedPart : GoString → GoString
  | [] => []
  | c :: cs => if c = 43 ∨ c = 45 then cs else c :: cs

/-- A base-10 integer: an optional sign followed by one or more decimal
digits and nothing else. -/
def isInteger (s : GoString) : Bool :=
  unsignedPart s ≠ [] && (unsignedPart s).all isDigitByte

/-- The integer denoted by a base-10 integer string. -/
def integerValue (s : GoString) : Int :=
  if s.head? = some 45 then -(decimalValue (unsignedPart s) : Int)
  else (decimalValue (unsignedPart s) : Int)

/-- The nearest `int64` to `x`. -/
def clampInt64 (x : Int) : Int := max (-(2 ^ 63)) (min (2 ^ 63 - 1) x)

/-- The digits that follow the optional sign, up to the first byte that is not
a digit, already denote a number above `maxUint64`. -/
def overflowsUint64 (s : GoString) : Bool :=
  decide (decimalValue ((unsignedPart s).takeWhile isDigitByte) > maxUint64)

end search

namespace search

/-! ### `time.Parse` for the layouts of `allowedDateFormats` (Go standard library) -/

/-- A `time.Time` as produced by `time.Parse` for a layout without clock or
zone elements: the civil date, at 00:00:00 UTC. -/
structure Time where
  Year : Int
  Month : Int
  Day : Int
  deriving DecidableEq, Repr

/-- The layout elements that occur in `allowedDateFormats`: `2006`, `01`, `02`. -/
inductive Std where
  | stdLongYear
  | stdZeroMonth
  | stdZeroDay
  deriving DecidableEq, Repr

/-- A layout as `time.Parse` walks it: the successive `(prefix, std)` results
of `nextStdChunk`, and the literal text left after the last element. -/
structure Layout where
  chunks : List (GoString × Std)
  rest : GoString

/-- `isDigit(s, i)` of package `time`. -/
def isDigit (s : GoString) (i : Nat) : Bool :=
  match s.get? i with
  | none => false
  | some c => isDigitByte c

/-- `1<<63`. -/
def pow63 : Nat := 2 ^ 63

/-- `leadingInt` of package `time`, with accumulator `x` (a `uint64`): consumes
the leading digits; `none` is `errLeadingInt`. -/
def leadingInt : GoString → Nat → Option (Nat × GoString)
  | [], x => some (x, [])
  | c :: cs, x =>
    if isDigitByte c then
      if x > pow63 / 10 then none
      else
        let x1 := wrap64 (x * 10 + digitVal c)
        if x1 > pow63 then none else leadingInt cs x1
    else some (x, c :: cs)

/-- Conversion `int(q)` of a `uint64` to a 64-bit `int`. -/
def toInt64 (q : Nat) : Int := if q ≥ pow63 then (q : Int) - 2 ^ 64 else (q : Int)

/-- `atoi` of package `time`: an optional sign and digits, nothing else. -/
def timeAtoi (s : GoString) : Option Int :=
  let neg := s.head? = some 45
  let s1 := if s.head? = some 45 ∨ s.head? = some 43 then s.tail else s
  match leadingInt s1 0 with
  | none => none
  | some (q, rem) =>
    if rem ≠ [] then none
    else some (if neg then -(toInt64 q) else toInt64 q)

/-- `getnum` of package `time`: one or two digits (exactly two when `fixed`). -/
def getnum (s : GoString) (fixed : Bool) : Option (Int × GoString) :=
  if ¬ isDigit s 0 then none
  else if ¬ isDigit s 1 then
    if fixed then none
    else some ((digitVal (s.headD 0) : Int), s.drop 1)
  else some ((digitVal (s.headD 0) : Int) * 10 + (digitVal ((s.drop 1).headD 0) : Int), s.drop 2)

/-- `skip` of package `time` for a literal prefix without spaces (the only
literal in the layouts used here is `-`): the value must start with it. -/
def skip : GoString → GoString → Option GoString
  | value, [] => some value
  | [], _ :: _ => none
  | v :: vs, p :: ps => if v = p then skip vs ps else none

/-- `isLeap`. -/
def isLeap (year : Int) : Bool :=
  Int.tmod year 4 = 0 ∧ (Int.tmod year 100 ≠ 0 ∨ Int.tmod year 400 = 0)

/-- `daysBefore[m]`: the days of a non-leap year before month `m + 1`. -/
def daysBefore (m : Int) : Int :=
  ([0, 31, 59, 90, 120, 151, 181, 212, 243, 273, 304, 334, 365] : List Int).getD m.toNat 0

/-- `daysIn(m, year)`. -/
def daysIn (m : Int) (year : Int) : Int :=
  if m = 2 ∧ isLeap year then 29 else daysBefore m - daysBefore (m - 1)

/-- The variables of `time.Parse` that these layouts touch. -/
structure ParseState where
  value : GoString
  year : Int
  month : Int
  day : Int

/-- One layout element of the `switch std & stdMask` of `time.Parse`; `none`
when the element reports an error (`errBad` or a range error). -/
def parseStd (std : Std) (st : ParseState) : Option ParseState :=
  match std with
  | Std.stdLongYear =>
    if st.value.length < 4 ∨ ¬ isDigit st.value 0 then none
    else
      match timeAtoi (st.value.take 4) with
      | none => none
      | some y => some { st with value := st.value.drop 4, year := y }
  | Std.stdZeroMonth =>
    match getnum st.value true with
    | none => none
    | some (m, value) =>
      if m ≤ 0 ∨ 12 < m then none
      else some { st with value := value, month := m }
  | Std.stdZeroDay =>
    match getnum st.value true with
    | none => none
    | some (d, value) => some { st with value := value, day := d }

/-- The main loop of `time.Parse`: skip the literal prefix, parse the element;
after the last element the remaining literal is skipped and any text left over
is an error (`extra text`). -/
def parseLoop : List (GoString × Std) → GoString → ParseState → Option ParseState
  | [], rest, st =>
    match skip st.value rest with
    | none => none
    | some value => if value.length ≠ 0 then none else some { st with value := value }
  | (pfx, std) :: chunks, rest, st =>
    match skip st.value pfx with
    | none => none
    | some value =>
      match parseStd std { st with value := value } with
      | none => none
      | some st1 => parseLoop chunks rest st1

/-- The end of `time.Parse`: a month or day the layout does not mention
defaults to 1, the day of the month is validated (`day out of range`), and the
result is `Date(year, Month(month), day, 0, 0, 0, 0, UTC)`. -/
def parseFinish (st : ParseState) : Option Time :=
  let month := if st.month < 0 then 1 else st.month
  let day := if st.day < 0 then 1 else st.day
  if day < 1 ∨ day > daysIn month st.year then none
  else some ⟨st.year, month, day⟩

/-- `time.Parse(layout, value)`; `none` when it returns an error. -/
def Parse (layout : Layout) (value : GoString) : Option Time :=
  match parseLoop layout.chunks layout.rest ⟨value, 0, -1, -1⟩ with
  | none => none
  | some st => parseFinish st

/-- `allowedDateFormats = []string{"2006-01-02", "2006-01", "2006"}`, each
layout split into its elements. -/
def allowedDateFormats : List Layout :=
  [ ⟨[([], Std.stdLongYear), (str "-", Std.stdZeroMonth), (str "-", Std.stdZeroDay)], []⟩,
    ⟨[([], Std.stdLongYear), (str "-", Std.stdZeroMonth)], []⟩,
    ⟨[([], Std.stdLongYear)], []⟩ ]

/-- The `for _, format := range` loop of `readDate`: the first layout that
parses without error wins. -/
def readDateLoop (input : GoString) : List Layout → Option Time
  | [] => none
  | format :: formats =>
    match Parse format input with
    | some tt => some tt
    | none => readDateLoop input formats

/-- `readDate`: `nil` (here `none`) for the empty input and for an input no
layout accepts. -/
def readDate (input : GoString) : Option Time :=
  if input = [] then none
  else readDateLoop input allowedDateFormats

/-! ### Reference notions for calendar dates (used to state properties) -/

/-- The number of days of month `m` of year `y` in the Gregorian calendar. -/
def monthLength (y m : Int) : Int :=
  if m = 2 then (if y % 4 = 0 ∧ (y % 100 ≠ 0 ∨ y % 400 = 0) then 29 else 28)
  else if m = 4 ∨ m = 6 ∨ m = 9 ∨ m = 11 then 30
  else 31

/-- The date written as `YYYY-MM-DD`: four, two and two decimal digits
separated by `-`, with the month in `1..12` and the day within the month. -/
def matchYMD : GoString → Option Time
  | [y1, y2, y3, y4, s1, m1, m2, s2, d1, d2] =>
    if s1 = 45 ∧ s2 = 45 ∧ ([y1, y2, y3, y4, m1, m2, d1, d2] : GoString).all isDigitByte then
      let y : Int := decimalValue [y1, y2, y3, y4]
      let m : Int := decimalValue [m1, m2]
      let d : Int := decimalValue [d1, d2]
      if 1 ≤ m ∧ m ≤ 12 ∧ 1 ≤ d ∧ d ≤ monthLength y m then some ⟨y, m, d⟩ else none
    else none
  | _ => none

/-- The date written as `YYYY-MM`, the missing day being 1. -/
def matchYM : GoString → Option Time
  | [y1, y2, y3, y4, s1, m1, m2] =>
    if s1 = 45 ∧ ([y1, y2, y3, y4, m1, m2] : GoString).all isDigitByte then
      let y : Int := decimalValue [y1, y2, y3, y4]
      let m : Int := decimalValue [m1, m2]
      if 1 ≤ m ∧ m ≤ 12 then some ⟨y, m, 1⟩ else none
    else none
  | _ => none

/-- The date written as `YYYY`, the missing month and day being 1. -/
def matchY : GoString → Option Time
  | [y1, y2, y3, y4] =>
    if ([y1, y2, y3, y4] : GoString).all isDigitByte then
      some ⟨(decimalValue [y1, y2, y3, y4] : Int), 1, 1⟩
    else none
  | _ => none

/-- The date the specification assigns to an input: none for the empty input,
otherwise the reading of the first of `YYYY-MM-DD`, `YYYY-MM`, `YYYY` that
matches, and none when no layout matches. -/
def specReadDate (s : GoString) : Option Time :=
  if s = [] then none
  else
    match matchYMD s with
    | some t => some t
    | none =>
      match matchYM s with
      | some t => some t
      | none => matchY s

end search

namespace search

/-! ### Errors -/

/-- `ErrSyntax.Error()` and `ErrRange.Error()`. -/
def ErrKind.Error : ErrKind → GoString
  | ErrKind.ErrSyntax => str "invalid syntax"
  | ErrKind.ErrRange => str "value out of range"

/-- The Go errors that occur in the handler: a `*strconv.NumError`, an error
built by `fmt.Errorf("<text>%w", err)`, or any other error with its message. -/
inductive GoError where
  | num (e : NumError)
  | wrapped (text : GoString) (err : GoError)
  | other (msg : GoString)

/-- `err.Error()`. A `NumError` prints as
`"strconv." + Func + ": parsing " + Quote(Num) + ": " + Err.Error()`, and an
error made by `fmt.Errorf` with a trailing `%w` as the text followed by the
message of the wrapped error. `quote` is `strconv.Quote`. -/
def GoError.Error (quote : GoString → GoString) : GoError → GoString
  | GoError.num e =>
    str "strconv." ++ e.Func ++ str ": parsing " ++ quote e.Num ++ str ": " ++ e.Err.Error
  | GoError.wrapped text err => text ++ err.Error quote
  | GoError.other msg => msg

/-! ### Standard-library and package functions that are not in the sources

The Unicode paths of `strings.ToLower` and `strings.TrimSpace`,
`strconv.Quote`, `strconv.ParseFloat` and the repository's
`address.ParseAddress` are taken as parameters. `F` is the type of `float64`
values and `Addr` the type `search.Address`. -/

/-- The functions the request reader calls without their code being modelled. -/
structure Lib (F Addr : Type) where
  /-- `strconv.Quote`. -/
  Quote : GoString → GoString
  /-- `strings.Map(unicode.ToLower, s)`. -/
  MapToLower : GoString → GoString
  /-- `strings.TrimFunc(s, unicode.IsSpace)`. -/
  TrimFuncSpace : GoString → GoString
  /-- `strings.TrimRightFunc(s, unicode.IsSpace)`. -/
  TrimRightFuncSpace : GoString → GoString
  /-- The value returned by `strconv.ParseFloat(s, 64)` (its error is not used). -/
  ParseFloat : GoString → F
  /-- The `float64` constant `0.00`. -/
  zero : F
  /-- `address.ParseAddress`. -/
  ParseAddress : GoString → Addr

/-- A byte below `utf8.RuneSelf`. -/
def isASCIIByte (c : UInt8) : Bool := c.toNat < 128

/-- `c += 'a' - 'A'` for `'A' <= c && c <= 'Z'`. -/
def lowerByte (c : UInt8) : UInt8 :=
  if 65 ≤ c.toNat ∧ c.toNat ≤ 90 then UInt8.ofNat (c.toNat + 32) else c

/-- `strings.ToLower`: an ASCII-only string is lowered byte by byte, any other
string goes through `Map(unicode.ToLower, s)`. -/
def ToLower {F Addr : Type} (L : Lib F Addr) (s : GoString) : GoString :=
  if s.all isASCIIByte then s.map lowerByte else L.MapToLower s

/-- The table `asciiSpace`: tab, newline, vertical tab, form feed, carriage
return and space. -/
def asciiSpace (c : UInt8) : Bool :=
  c = 9 ∨ c = 10 ∨ c = 11 ∨ c = 12 ∨ c = 13 ∨ c = 32

/-- The first loop of `strings.TrimSpace`: drop leading ASCII space; on a
non-ASCII byte hand the rest to `TrimFunc` (left: the final result), else
return what remains (right). -/
def trimSpaceStart {F Addr : Type} (L : Lib F Addr) : GoString → GoString ⊕ GoString
  | [] => Sum.inr []
  | c :: cs =>
    if ¬ isASCIIByte c then Sum.inl (L.TrimFuncSpace (c :: cs))
    else if asciiSpace c then trimSpaceStart L cs
    else Sum.inr (c :: cs)

/-- The second loop of `strings.TrimSpace`, on the reversed remainder: drop
trailing ASCII space; on a non-ASCII byte hand the rest to `TrimRightFunc`. -/
def trimSpaceStop {F Addr : Type} (L : Lib F Addr) : GoString → GoString
  | [] => []
  | c :: cs =>
    if ¬ isASCIIByte c then L.TrimRightFuncSpace (c :: cs).reverse
    else if asciiSpace c then trimSpaceStop L cs
    else (c :: cs).reverse

/-- `strings.TrimSpace`. -/
def TrimSpace {F Addr : Type} (L : Lib F Addr) (s : GoString) : GoString :=
  match trimSpaceStart L s with
  | Sum.inl result => result
  | Sum.inr remainder => trimSpaceStop L remainder.reverse

/-- `strings.Split(s, sep)` for a separator of one byte: the pieces between
the occurrences of `sep`, one more than there are occurrences. -/
def Split (sep : UInt8) : GoString → List GoString
  | [] => [[]]
  | c :: cs =>
    if c = sep then [] :: Split sep cs
    else
      match Split sep cs with
      | [] => [[c]]
      | part :: parts => (c :: part) :: parts

/-! ### The query entity (`pkg/search`) -/

/-- Modelled from the spec: the entity type tags of `pkg/search`
(`type` ∈ person, business, organization, aircraft, vessel). -/
def EntityPerson : GoString := str "person"

/-- Modelled from the spec: the entity type tag `business`. -/
def EntityBusiness : GoString := str "business"

/-- Modelled from the spec: the entity type tag `organization`. -/
def EntityOrganization : GoString := str "organization"

/-- Modelled from the spec: the entity type tag `aircraft`. -/
def EntityAircraft : GoString := str "aircraft"

/-- Modelled from the spec: the entity type tag `vessel`. -/
def EntityVessel : GoString := str "vessel"

/-- Modelled from the spec: the source tag of an entity; only the constant the
request reader assigns, `SourceAPIRequest`, is distinguished from the zero
value. -/
inductive SourceList where
  | unset
  | SourceAPIRequest
  deriving DecidableEq, Repr

/-- The fields of `search.Person` the request reader fills. -/
structure Person where
  Name : GoString
  AltNames : List GoString
  Gender : GoString
  BirthDate : Option Time
  DeathDate : Option Time
  Titles : List GoString
  deriving DecidableEq

/-- The fields of `search.Business` the request reader fills. -/
structure Business where
  Name : GoString
  Created : Option Time
  Dissolved : Option Time
  deriving DecidableEq

/-- The fields of `search.Organization` the request reader fills. -/
structure Organization where
  Name : GoString
  Created : Option Time
  Dissolved : Option Time
  deriving DecidableEq

/-- The fields of `search.Aircraft` the request reader fills. -/
structure Aircraft where
  Name : GoString
  Typ : GoString
  Flag : GoString
  Built : Option Time
  ICAOCode : GoString
  Model : GoString
  SerialNumber : GoString
  deriving DecidableEq

/-- The fields of `search.Vessel` the request reader fills. -/
structure Vessel where
  Name : GoString
  IMONumber : GoString
  Typ : GoString
  Flag : GoString
  Built : Option Time
  Model : GoString
  MMSI : GoString
  CallSign : GoString
  Owner : GoString
  Tonnage : Int
  GrossRegisteredTonnage : Int
  deriving DecidableEq

/-- `search.CryptoAddress`. -/
structure CryptoAddress where
  Currency : GoString
  Address : GoString
  deriving DecidableEq

/-- The fields of `search.Entity[search.Value]` the request reader touches.
A nil payload pointer is `none`. -/
structure Entity (Addr : Type) where
  Name : GoString
  Typ : GoString
  Source : SourceList
  SourceID : GoString
  Person : Option Person
  Business : Option Business
  Organization : Option Organization
  Aircraft : Option Aircraft
  Vessel : Option Vessel
  CryptoAddresses : List CryptoAddress
  Addresses : List Addr

/-! ### The readers of `api_search.go` -/

/-- `readInt`: `strconv.ParseInt(input, 10, 32)`. -/
def readInt (input : GoString) : Int × Option NumError :=
  ParseInt input 32

/-- The loop of `readCryptoCurrencyAddresses` with the slice built so far. -/
def readCryptoLoop : List GoString → List CryptoAddress → List CryptoAddress
  | [], out => out
  | input :: inputs, out =>
    let parts := Split 58 input
    if parts.length = 2 then
      readCryptoLoop inputs (out ++ [⟨parts.getD 0 [], parts.getD 1 []⟩])
    else readCryptoLoop inputs out

/-- `readCryptoCurrencyAddresses`: a query parameter looks like
`cryptoAddress=XBT:x123456`. -/
def readCryptoCurrencyAddresses (inputs : List GoString) : List CryptoAddress :=
  readCryptoLoop inputs []

/-- `readAddresses`. -/
def readAddresses {F Addr : Type} (L : Lib F Addr) (inputs : List GoString) : List Addr :=
  inputs.map L.ParseAddress

/-- `extractSearchMinMatch`: the parsed value is returned as it is. -/
def extractSearchMinMatch {F Addr : Type} (L : Lib F Addr) (r : Request) : F :=
  let v := r.query.Get (str "minMatch")
  if v ≠ [] then L.ParseFloat v else L.zero

/-- The end of `readSearchRequest`, after the `switch`. -/
def readSearchTail {F Addr : Type} (L : Lib F Addr) (r : Request) (req : Entity Addr) :
    Entity Addr × Option GoError :=
  ({ req with
      CryptoAddresses := readCryptoCurrencyAddresses (r.query (str "cryptoAddress")),
      Addresses := readAddresses L (r.query (str "address")) }, none)

/-- `readSearchRequest`: the entity read so far and the error, if any. The
Aircraft and Vessel cases pass the literal `"built"` to `readDate`. -/
def readSearchRequest {F Addr : Type} (L : Lib F Addr) (r : Request) :
    Entity Addr × Option GoError :=
  let q := r.query
  let req : Entity Addr :=
    { Name := TrimSpace L (q.Get (str "name")),
      Typ := TrimSpace L (ToLower L (q.Get (str "type"))),
      Source := SourceList.SourceAPIRequest,
      SourceID := TrimSpace L (q.Get (str "requestID")),
      Person := none, Business := none, Organization := none, Aircraft := none,
      Vessel := none, CryptoAddresses := [], Addresses := [] }
  if req.Typ = EntityPerson then
    readSearchTail L r { req with
      Person := some
        { Name := req.Name,
          AltNames := q (str "altNames"),
          Gender := TrimSpace L (q.Get (str "gender")),
          BirthDate := readDate (q.Get (str "birthDate")),
          DeathDate := readDate (q.Get (str "deathDate")),
          Titles := q (str "titles") } }
  else if req.Typ = EntityBusiness then
    readSearchTail L r { req with
      Business := some
        { Name := req.Name,
          Created := readDate (q.Get (str "created")),
          Dissolved := readDate (q.Get (str "dissolved")) } }
  else if req.Typ = EntityOrganization then
    readSearchTail L r { req with
      Organization := some
        { Name := req.Name,
          Created := readDate (q.Get (str "created")),
          Dissolved := readDate (q.Get (str "dissolved")) } }
  else if req.Typ = EntityAircraft then
    readSearchTail L r { req with
      Aircraft := some
        { Name := req.Name,
          Typ := q.Get (str "aircraftType"),
          Flag := q.Get (str "flag"),
          Built := readDate (str "built"),
          ICAOCode := q.Get (str "icaoCode"),
          Model := q.Get (str "model"),
          SerialNumber := q.Get (str "serialNumber") } }
  else if req.Typ = EntityVessel then
    let vessel : Vessel :=
      { Name := req.Name,
        IMONumber := q.Get (str "imoNumber"),
        Typ := q.Get (str "vesselType"),
        Flag := q.Get (str "flag"),
        Built := readDate (str "built"),
        Model := q.Get (str "model"),
        MMSI := q.Get (str "mmsi"),
        CallSign := q.Get (str "callSign"),
        Owner := q.Get (str "owner"),
        Tonnage := 0,
        GrossRegisteredTonnage := 0 }
    match readInt (q.Get (str "tonnage")) with
    | (n, some err) =>
      ({ req with Vessel := some { vessel with Tonnage := n } },
        some (GoError.wrapped (str "reading vessel tonnage: ") (GoError.num err)))
    | (n, none) =>
      match readInt (q.Get (str "grossRegisteredTonnage")) with
      | (g, some err) =>
        ({ req with Vessel := some { vessel with Tonnage := n, GrossRegisteredTonnage := g } },
          some (GoError.wrapped (str "reading vessel GrossRegisteredTonnage: ")
            (GoError.num err)))
      | (g, none) =>
        readSearchTail L r
          { req with Vessel := some { vessel with Tonnage := n, GrossRegisteredTonnage := g } }
  else readSearchTail L r req

/-! ### The handler `controller.search` -/

/-- `SearchOpts`. -/
structure SearchOpts (F : Type) where
  Limit : Int
  MinMatch : F

/-- The JSON documents the handler encodes: `errorResponse` is
`{"error": Error}` and `searchResponse` is `{"entities": Entities}`. -/
inductive Body (SE : Type) where
  | errorResponse (Error : GoString)
  | searchResponse (Entities : List SE)

/-- The state of an `http.ResponseWriter`: the header map, whether the status
line has been written, with which code and which headers, and the documents
written to the body. -/
structure ResponseWriter (SE : Type) where
  header : List (GoString × GoString)
  wroteHeader : Bool
  status : Nat
  sentHeader : List (GoString × GoString)
  body : List (Body SE)

/-- A fresh `ResponseWriter`. -/
def ResponseWriter.fresh (SE : Type) : ResponseWriter SE :=
  ⟨[], false, 0, [], []⟩

/-- `w.WriteHeader(code)`: sends the status line with the headers set so far;
a second call has no effect. -/
def ResponseWriter.WriteHeader {SE : Type} (w : ResponseWriter SE) (code : Nat) :
    ResponseWriter SE :=
  if w.wroteHeader then w
  else { w with wroteHeader := true, status := code, sentHeader := w.header }

/-- `w.Header().Set(key, value)`. -/
def ResponseWriter.SetHeader {SE : Type} (w : ResponseWriter SE) (key value : GoString) :
    ResponseWriter SE :=
  { w with header := (key, value) :: w.header.filter (fun kv => kv.1 ≠ key) }

/-- `json.NewEncoder(w).Encode(v)`: a write to `w`, which first sends status
200 when no status line has been written. -/
def ResponseWriter.Encode {SE : Type} (w : ResponseWriter SE) (v : Body SE) :
    ResponseWriter SE :=
  let w1 := w.WriteHeader 200
  { w1 with body := w1.body ++ [v] }

/-- `http.StatusBadRequest`. -/
def StatusBadRequest : Nat := 400

/-- `http.StatusInternalServerError`. -/
def StatusInternalServerError : Nat := 500

/-- `Service.Search`, as a function of the query entity and the options. -/
abbrev Service (F Addr SE : Type) := Entity Addr → SearchOpts F → Except GoError (List SE)

/-- The options the handler builds from the request. -/
def searchOpts {F Addr : Type} (L : Lib F Addr) (r : Request) : SearchOpts F :=
  { Limit := extractSearchLimit r, MinMatch := extractSearchMinMatch L r }

/-- `controller.search`: the final state of the response writer. Logging has
no effect on the response and is left out. -/
def controller.search {F Addr SE : Type} (L : Lib F Addr) (service : Service F Addr SE)
    (r : Request) :
    ResponseWriter SE :=
  let w := ResponseWriter.fresh SE
  match readSearchRequest L r with
  | (_, some err) =>
    let err := GoError.wrapped (str "problem reading v2 search request: ") err
    let w := w.WriteHeader StatusBadRequest
    let w := w.SetHeader (str "Content-Type") (str "application/json")
    w.Encode (Body.errorResponse (err.Error L.Quote))
  | (req, none) =>
    let opts := searchOpts L r
    match service req opts with
    | Except.error _ => w.WriteHeader StatusBadRequest
    | Except.ok entities =>
      let w := w.SetHeader (str "Content-Type") (str "application/json")
      w.Encode (Body.searchResponse entities)

/-! ### Instances used to evaluate the model on concrete requests -/

/-- `strconv.Quote` on a string of printable ASCII bytes: the string between
double quotes, with `"` and `\` escaped by a backslash. -/
def quoteASCII (s : GoString) : GoString :=
  [34] ++ s.flatMap (fun c => if c = 34 ∨ c = 92 then [92, c] else [c]) ++ [34]

/-- The part of `strconv.ParseFloat(s, 64)` on unsigned decimal integer
literals of at most 15 digits: the mantissa is below `2^52` and the exponent is
0, so the exact path (`atof64exact`) returns `float64(mantissa)`, the integer
itself. `none`
stands for every input outside this fragment. -/
def parseFloatDigits (s : GoString) : Option Rat :=
  if s ≠ [] ∧ s.all isDigitByte ∧ s.length ≤ 15 then some (decimalValue s : Rat) else none

/-- A library instance for ASCII requests: `float64` values of the fragment
above, addresses kept as the raw string. -/
def asciiLib : Lib (Option Rat) GoString :=
  { Quote := quoteASCII,
    MapToLower := fun s => s,
    TrimFuncSpace := fun s => s,
    TrimRightFuncSpace := fun s => s,
    ParseFloat := parseFloatDigits,
    zero := some 0,
    ParseAddress := fun s => s }

/-- The request whose query holds the given parameters. -/
def mkRequest (params : List (String × List String)) : Request :=
  ⟨Values.ofList (params.map (fun kv => (str kv.1, kv.2.map str)))⟩

/-! ### Reference notions for crypto addresses (used to state properties) -/

/-- The pair denoted by a value `c:a` with exactly one colon; nothing for a
value with no colon or with several. -/
def cryptoPair (s : GoString) : Option CryptoAddress :=
  if s.count 58 = 1 then
    some ⟨s.takeWhile (fun c => c ≠ 58), (s.dropWhile (fun c => c ≠ 58)).drop 1⟩
  else none

end search

namespace search

/-- A base-10 integer that fits in 32 signed bits. -/
def fitsInt32 (s : GoString) : Bool :=
  isInteger s && decide (-(2 ^ 31) ≤ integerValue s) && decide (integerValue s ≤ 2 ^ 31 - 1)

end search

namespace server

open search

/-! ### `cmd/server/main.go`: the data refresh interval

`getDataRefreshInterval` calls `strings.EqualFold` and `time.ParseDuration`
(Go standard library). Both are modelled from their code. What stays a
parameter: `unicode.SimpleFold` above ASCII, and the one floating-point
expression of `ParseDuration`. Runes are natural numbers. -/

/-- `utf8.RuneError`. -/
def RuneError : Nat := 0xFFFD

/-- `utf8.RuneSelf`. -/
def RuneSelf : Nat := 0x80

/-- The table `first` of package `utf8`: `0xF0` for ASCII, `0xF1` for an
invalid first byte, otherwise the size in the low three bits and the index of
the accept range in the high four. -/
def utf8First (b : Nat) : Nat :=
  if b < 0x80 then 0xF0
  else if b < 0xC2 then 0xF1
  else if b < 0xE0 then 0x02
  else if b = 0xE0 then 0x13
  else if b < 0xED then 0x03
  else if b = 0xED then 0x23
  else if b < 0xF0 then 0x03
  else if b = 0xF0 then 0x34
  else if b < 0xF4 then 0x04
  else if b = 0xF4 then 0x44
  else 0xF1

/-- `acceptRanges[i].lo`. -/
def acceptLo (i : Nat) : Nat :=
  if i = 1 then 0xA0 else if i = 3 then 0x90 else 0x80

/-- `acceptRanges[i].hi`. -/
def acceptHi (i : Nat) : Nat :=
  if i = 2 then 0x9F else if i = 4 then 0x8F else 0xBF

/-- `utf8.DecodeRuneInString`: the rune at the start of `s` and its width
(ranging over a string decodes the same way). The masked bit fields do not
overlap, so `|` and `<<` are written as `+` and `*`. -/
def DecodeRuneInString (s : GoString) : Nat × Nat :=
  match s with
  | [] => (RuneError, 0)
  | b0 :: _ =>
    let x := utf8First b0.toNat
    if x ≥ 0xF0 then (if x = 0xF1 then RuneError else b0.toNat, 1)
    else
      let sz := x % 8
      let accept := x / 16
      if s.length < sz then (RuneError, 1)
      else
        let s1 := (s.getD 1 0).toNat
        if s1 < acceptLo accept ∨ acceptHi accept < s1 then (RuneError, 1)
        else if sz ≤ 2 then ((b0.toNat % 32) * 64 + s1 % 64, 2)
        else
          let s2 := (s.getD 2 0).toNat
          if s2 < 0x80 ∨ 0xBF < s2 then (RuneError, 1)
          else if sz ≤ 3 then ((b0.toNat % 16) * 4096 + (s1 % 64) * 64 + s2 % 64, 3)
          else
            let s3 := (s.getD 3 0).toNat
            if s3 < 0x80 ∨ 0xBF < s3 then (RuneError, 1)
            else ((b0.toNat % 8) * 262144 + (s1 % 64) * 4096 + (s2 % 64) * 64 + s3 % 64, 4)

/-- The table `asciiFold` of package `unicode`: an upper-case letter maps to
its lower-case letter; a lower-case letter to its upper-case letter, except
`k`, which maps to the Kelvin sign U+212A, and `s`, which maps to the long s
U+017F; every other ASCII rune maps to itself. -/
def asciiFold (r : Nat) : Nat :=
  if 65 ≤ r ∧ r ≤ 90 then r + 32
  else if r = 107 then 0x212A
  else if r = 115 then 0x17F
  else if 97 ≤ r ∧ r ≤ 122 then r - 32
  else r

/-- The standard-library computations that are not modelled. -/
structure Unicode where
  /-- `unicode.SimpleFold` on a rune above `MaxASCII` (the `caseOrbit` table,
  `ToLower` and `ToUpper`). -/
  foldAbove : Nat → Nat
  /-- The value `uint64(float64(f) * (float64(unit) / scale))` of
  `time.ParseDuration`, as a function of `f`, `unit` and `scale`. -/
  fracNanos : Nat → Nat → Nat → Nat

/-- `unicode.SimpleFold`. -/
def SimpleFold (U : Unicode) (r : Nat) : Nat :=
  if r > 0x10FFFF then r
  else if r < 128 then asciiFold r
  else U.foldAbove r

/-- The `for r != sr && r < tr` loop of `EqualFold`, allowed `n` evaluations
of its condition; `none` when they do not suffice. -/
def orbitLoop (U : Unicode) (sr tr : Nat) : Nat → Nat → Option Nat
  | 0, _ => none
  | n + 1, r =>
    if r ≠ sr ∧ r < tr then orbitLoop U sr tr n (SimpleFold U r) else some r

/-- `'A' <= sr && sr <= 'Z' && tr == sr+'a'-'A'`. -/
def upperLowerPair (sr tr : Nat) : Bool :=
  65 ≤ sr ∧ sr ≤ 90 ∧ tr = sr + 32

/-- The ASCII fast path of `strings.EqualFold`, on what is left of both
strings: the result (left), or the two remainders at the first index where a
non-ASCII byte shows up, from where the `hasUnicode` code takes over (right).
One string being exhausted, the lengths are equal when both are. -/
def equalFoldASCII : GoString → GoString → Bool ⊕ (GoString × GoString)
  | sr :: s, tr :: t =>
    if sr.toNat ≥ RuneSelf ∨ tr.toNat ≥ RuneSelf then Sum.inr (sr :: s, tr :: t)
    else if tr = sr then equalFoldASCII s t
    else if upperLowerPair (min sr.toNat tr.toNat) (max sr.toNat tr.toNat) then
      equalFoldASCII s t
    else Sum.inl false
  | [], t => Sum.inl (decide (0 = t.length))
  | _ :: s, [] => Sum.inl (decide (s.length + 1 = 0))

/-- The `hasUnicode` loop of `strings.EqualFold`, one rune of `s` per
iteration, with a counter `n` of the iterations left (the length of `s` is
enough, every iteration consumes at least one byte) and `fuel` evaluations for
each orbit loop; `none` when either runs out. -/
def equalFoldUnicode (U : Unicode) (fuel : Nat) : Nat → GoString → GoString → Option Bool
  | _, [], t => some (decide (t.length = 0))
  | 0, _ :: _, _ => none
  | n + 1, c :: cs, t =>
    match t with
    | [] => some false
    | t0 :: trest =>
      let sr := (DecodeRuneInString (c :: cs)).1
      let size := (DecodeRuneInString (c :: cs)).2
      let tr := if t0.toNat < RuneSelf then t0.toNat else (DecodeRuneInString (t0 :: trest)).1
      let t1 :=
        if t0.toNat < RuneSelf then trest
        else (t0 :: trest).drop (DecodeRuneInString (t0 :: trest)).2
      if tr = sr then equalFoldUnicode U fuel n ((c :: cs).drop size) t1
      else if max sr tr < RuneSelf then
        if upperLowerPair (min sr tr) (max sr tr) then
          equalFoldUnicode U fuel n ((c :: cs).drop size) t1
        else some false
      else
        match orbitLoop U (min sr tr) (max sr tr) fuel (SimpleFold U (min sr tr)) with
        | none => none
        | some r =>
          if r = max sr tr then equalFoldUnicode U fuel n ((c :: cs).drop size) t1
          else some false

/-- `strings.EqualFold(s, t)`. -/
def EqualFold (U : Unicode) (fuel : Nat) (s t : GoString) : Option Bool :=
  match equalFoldASCII s t with
  | Sum.inl result => some result
  | Sum.inr (s1, t1) => equalFoldUnicode U fuel s1.length s1 t1

/-- `time.Nanosecond` ... `time.Hour`, in nanoseconds. -/
def Nanosecond : Nat := 1

/-- `time.Microsecond`. -/
def Microsecond : Nat := 1000 * Nanosecond

/-- `time.Millisecond`. -/
def Millisecond : Nat := 1000 * Microsecond

/-- `time.Second`. -/
def Second : Nat := 1000 * Millisecond

/-- `time.Minute`. -/
def Minute : Nat := 60 * Second

/-- `time.Hour`. -/
def Hour : Nat := 60 * Minute

/-- `unitMap` of package `time`; the two spellings of the micro sign are the
UTF-8 bytes of U+00B5 and of U+03BC. -/
def unitMap (u : GoString) : Option Nat :=
  if u = str "ns" then some Nanosecond
  else if u = str "us" then some Microsecond
  else if u = [0xC2, 0xB5, 115] then some Microsecond
  else if u = [0xCE, 0xBC, 115] then some Microsecond
  else if u = str "ms" then some Millisecond
  else if u = str "s" then some Second
  else if u = str "m" then some Minute
  else if u = str "h" then some Hour
  else none

/-- `(1<<63 - 1) / 10`. -/
def fractionCutoff : Nat := (pow63 - 1) / 10

/-- `leadingFraction` of package `time` with its variables `x`, `scale` and
`overflow`: consumes the leading digits and stops accumulating on overflow.
`scale` is a power of ten of at most 19 digits, exact as a `float64`. -/
def leadingFraction : GoString → Nat → Nat → Bool → Nat × Nat × GoString
  | [], x, scale, _ => (x, scale, [])
  | c :: cs, x, scale, overflow =>
    if isDigitByte c then
      if overflow then leadingFraction cs x scale overflow
      else if x > fractionCutoff then leadingFraction cs x scale true
      else if wrap64 (x * 10 + digitVal c) > pow63 then leadingFraction cs x scale true
      else leadingFraction cs (wrap64 (x * 10 + digitVal c)) (scale * 10) false
    else (x, scale, c :: cs)

/-- A byte that ends a unit: `c == '.' || '0' <= c && c <= '9'`. -/
def isNumberByte (c : UInt8) : Bool := c = 46 ∨ isDigitByte c

/-- The `(\.[0-9]*)?` step of `ParseDuration`: `f`, `scale`, the rest and
`post`, whether digits followed the period. -/
def durationFraction (s : GoString) : Nat × Nat × GoString × Bool :=
  match s with
  | c :: cs =>
    if c = 46 then
      let r := leadingFraction cs 0 1 false
      (r.1, r.2.1, r.2.2, decide (cs.length ≠ r.2.2.length))
    else (0, 1, s, false)
  | [] => (0, 1, [], false)

/-- One iteration of the `for s != ""` loop of `time.ParseDuration` on a
non-empty `s` with the sum `d` so far: the rest of the string and the new sum,
or `none` for each `return 0, err`. -/
def parseDurationStep (U : Unicode) (s : GoString) (d : Nat) : Option (GoString × Nat) :=
  if ¬ isNumberByte (s.headD 0) then none
  else
    match leadingInt s 0 with
    | none => none
    | some (v, s1) =>
      let pre := decide (s.length ≠ s1.length)
      let fr := durationFraction s1
      let f := fr.1
      let scale := fr.2.1
      let s2 := fr.2.2.1
      let post := fr.2.2.2
      if ¬ pre ∧ ¬ post then none
      else
        let u := s2.takeWhile (fun b => ¬ isNumberByte b)
        let s3 := s2.dropWhile (fun b => ¬ isNumberByte b)
        if u.length = 0 then none
        else
          match unitMap u with
          | none => none
          | some unit =>
            if v > pow63 / unit then none
            else
              let v1 := wrap64 (v * unit)
              let v2 := if f > 0 then wrap64 (v1 + U.fracNanos f unit scale) else v1
              if f > 0 ∧ v2 > pow63 then none
              else
                let d1 := wrap64 (d + v2)
                if d1 > pow63 then none else some (s3, d1)

/-- The `for s != ""` loop of `time.ParseDuration` with a counter `n` of the
iterations left (every iteration consumes at least the unit, so the length of
`s` is enough); `none` stands for an error return and for the counter running
out. -/
def parseDurationLoop (U : Unicode) : Nat → GoString → Nat → Option Nat
  | _, [], d => some d
  | 0, _ :: _, _ => none
  | n + 1, c :: cs, d =>
    match parseDurationStep U (c :: cs) d with
    | none => none
    | some (s3, d1) => parseDurationLoop U n s3 d1

/-- `-Duration(d)` on 64-bit integers. -/
def negDuration (d : Nat) : Int :=
  toInt64 (wrap64 (2 ^ 64 - d))

/-- `time.ParseDuration(s)`: the duration in nanoseconds and whether an error
is returned. Every error return of the function is `return 0, err`. -/
def ParseDuration (U : Unicode) (s : GoString) : Int × Bool :=
  let neg := s.head? = some 45
  let s1 := if s.head? = some 45 ∨ s.head? = some 43 then s.tail else s
  if s1 = str "0" then (0, false)
  else if s1 = [] then (0, true)
  else
    match parseDurationLoop U s1.length s1 0 with
    | none => (0, true)
    | some d =>
      if neg then (negDuration d, false)
      else if d > pow63 - 1 then (0, true)
      else (toInt64 d, false)

/-- `dataRefreshInterval = 12 * time.Hour`. -/
def dataRefreshInterval : Int := 12 * (Hour : Int)

/-- `getDataRefreshInterval(logger, env)`; logging is left out. `none` only
when the orbit loop of `EqualFold` is given too little fuel. -/
def getDataRefreshInterval (U : Unicode) (fuel : Nat) (env : GoString) : Option Int :=
  if env ≠ [] then
    match EqualFold U fuel env (str "off") with
    | none => none
    | some true => some (0 * (Second : Int))
    | some false =>
      let dur := (ParseDuration U env).1
      if dur > 0 then some dur else some dataRefreshInterval
  else some dataRefreshInterval

/-- Equality with `off` ignoring letter case. -/
def equalsOff (env : GoString) : Bool :=
  env.map lowerByte = str "off"

/-- An instance for evaluation: no folding above ASCII, and the fraction
computed exactly and rounded down. -/
def plainUnicode : Unicode :=
  { foldAbove := fun r => r,
    fracNanos := fun f unit scale => f * unit / scale }

end server
namespace indices

theorem newLoop_closed (q r : Int) :
    ∀ (n k : Nat) (xs : List Int),
      newLoop q n (bnd q r k) (r - min (k : Int) r) xs
        = xs ++ (List.range' (k + 1) n).map (bnd q r) := by
  intro n
  induction n with
  | zero => intro k xs; simp [newLoop]
  | succ n ih =>
    intro k xs
    have hstep : bnd q r (k + 1) = if r - min (k : Int) r > 0 then bnd q r k + q + 1 else bnd q r k + q := by
      unfold bnd
      push_cast
      split_ifs with h
      · have : (k : Int) < r := by
          rcases le_total (k : Int) r with h1 | h1
          · rw [min_eq_left h1] at h; omega
          · rw [min_eq_right h1] at h; omega
        rw [min_eq_left (by omega), min_eq_left (by omega)]; ring
      · have : r ≤ (k : Int) := by
          rcases le_total (k : Int) r with h1 | h1
          · rw [min_eq_left h1] at h; omega
          · exact h1
        rw [min_eq_right (by omega), min_eq_right (by omega)]; ring
    have hrem : r - min ((k + 1 : Nat) : Int) r = if r - min (k : Int) r > 0 then r - min (k : Int) r - 1 else r - min (k : Int) r := by
      push_cast
      split_ifs with h
      · have : (k : Int) < r := by
          rcases le_total (k : Int) r with h1 | h1
          · rw [min_eq_left h1] at h; omega
          · rw [min_eq_right h1] at h; omega
        rw [min_eq_left (by omega), min_eq_left (by omega)]; ring
      · have : r ≤ (k : Int) := by
          rcases le_total (k : Int) r with h1 | h1
          · rw [min_eq_left h1] at h; omega
          · exact h1
        rw [min_eq_right (by omega), min_eq_right (by omega)]
    rw [newLoop]
    by_cases h : r - min (k : Int) r > 0
    · simp only [h, if_true] at hstep hrem ⊢
      rw [← hstep, ← hrem, ih (k + 1)]
      simp [List.range'_succ]
    · simp only [h, if_false] at hstep hrem ⊢
      rw [← hstep, ← hrem, ih (k + 1)]
      simp [List.range'_succ]


theorem tdiv_tmod_pos (N G : Int) (h1 : 1 < G) (h2 : G < N) :
    Int.tdiv N G = N / G ∧ Int.tmod N G = N % G := by
  constructor
  · exact Int.tdiv_eq_ediv (by omega) (by omega)
  · exact Int.tmod_eq_emod (by omega) (by omega)

theorem New_closed (N G : Int) (h1 : 1 < G) (h2 : G < N) :
    New N G = (List.range (G.toNat + 1)).map (bnd (N / G) (N % G)) := by
  obtain ⟨hd, hm⟩ := tdiv_tmod_pos N G h1 h2
  have hr0 : 0 ≤ N % G := Int.emod_nonneg _ (by omega)
  have hrG : N % G < G := Int.emod_lt_of_pos _ (by omega)
  have hNG : G * (N / G) + N % G = N := Int.ediv_add_emod N G
  unfold New
  rw [if_neg (by omega), if_neg (by omega)]
  simp only [hd, hm]
  have h0 : bnd (N / G) (N % G) 0 = 0 := by simp [bnd, hr0]
  have hl := newLoop_closed (N / G) (N % G) (G - 1).toNat 0 [0]
  rw [h0] at hl
  simp only [Nat.cast_zero, min_eq_left hr0, sub_zero] at hl
  rw [hl]
  have hG : G.toNat = (G - 1).toNat + 1 := by omega
  have hlast : bnd (N / G) (N % G) ((G - 1).toNat + 1) = N := by
    unfold bnd
    have : (((G - 1).toNat + 1 : Nat) : Int) = G := by omega
    rw [this, min_eq_right (by omega)]
    exact hNG
  rw [hG, List.range_succ, List.range_eq_range', List.range'_succ]
  simp [h0, hlast, List.range'_eq_map_range]
  have hG2 : G.toNat - 1 + 1 = (G - 1).toNat + 1 := by omega
  rw [hG2]; exact hlast.symm


theorem sizes_map_range' (f : Nat → Int) :
    ∀ (n k : Nat), sizes ((List.range' k (n + 1)).map f)
      = (List.range' k n).map (fun i => f (i + 1) - f i) := by
  intro n
  induction n with
  | zero => intro k; simp [sizes, List.range'_succ]
  | succ n ih =>
    intro k
    have := ih (k + 1)
    rw [List.range'_succ k (n + 1), List.range'_succ k n]
    unfold sizes at this ⊢
    rw [List.range'_succ (k + 1) n] at this ⊢
    simp only [List.map_cons, List.tail_cons, List.zipWith_cons_cons] at this ⊢
    rw [this]

theorem sizes_New (N G : Int) (h1 : 1 < G) (h2 : G < N) :
    sizes (New N G) = (List.range G.toNat).map
      (fun (i : Nat) => if (i : Int) < N % G then N / G + 1 else N / G) := by
  rw [New_closed N G h1 h2, List.range_eq_range', sizes_map_range', ← List.range_eq_range']
  apply List.map_congr_left
  intro i _
  unfold bnd
  push_cast
  split_ifs with h
  · rw [min_eq_left (by omega), min_eq_left (by omega)]; ring
  · rw [min_eq_right (by omega), min_eq_right (by omega)]; ring


theorem locate_range : ∀ (l : List Int), List.Sorted (· ≤ ·) l → ∀ (a b x : Int),
    l.head? = some a → l.getLast? = some b → a ≤ x → x < b →
    ∃! i : Nat, i + 1 < l.length ∧ l.getD i 0 ≤ x ∧ x < l.getD (i + 1) 0 := by
  intro l
  induction l with
  | nil => intro _ a b x h; simp at h
  | cons c l ih =>
    intro hs a b x ha hb hax hxb
    simp only [List.head?_cons, Option.some.injEq] at ha
    subst ha
    cases l with
    | nil =>
      simp at hb
      omega
    | cons d l =>
      have hs2 : List.Sorted (· ≤ ·) (d :: l) := hs.of_cons
      have hmono : ∀ y ∈ (d :: l), d ≤ y := by
        intro y hy
        rcases List.mem_cons.mp hy with h | h
        · omega
        · exact List.rel_of_sorted_cons hs2 y h
      have hb2 : (d :: l).getLast? = some b := by
        rw [← hb]; simp [List.getLast?_cons_cons]
      by_cases hxd : x < d
      · refine ⟨0, ⟨by simp, by simpa using hax, by simpa using hxd⟩, ?_⟩
        rintro (_ | j) ⟨hj1, hj2, _⟩
        · rfl
        · exfalso
          simp only [List.length_cons, add_lt_add_iff_right] at hj1
          have hmem : (d :: l).getD j 0 ∈ (d :: l) := by
            rw [List.getD_eq_getElem _ _ (by simp; omega)]
            exact List.getElem_mem _
          have := hmono _ hmem
          simp only [List.getD_cons_succ] at hj2
          omega
      · obtain ⟨j, ⟨hj1, hj2, hj3⟩, huniq⟩ := ih hs2 d b x rfl hb2 (by omega) hxb
        refine ⟨j + 1, ⟨by simpa using hj1, by simpa using hj2, by simpa using hj3⟩, ?_⟩
        rintro (_ | k) ⟨hk1, hk2, hk3⟩
        · exfalso
          simp at hk3
          omega
        · have := huniq k ⟨by simpa using hk1, by simpa using hk2, by simpa using hk3⟩
          omega

theorem bnd_mono (q r : Int) (hq : 0 ≤ q) (i j : Nat) (h : i ≤ j) : bnd q r i ≤ bnd q r j := by
  unfold bnd
  have h1 : (i : Int) * q ≤ (j : Int) * q := by
    apply mul_le_mul_of_nonneg_right _ hq
    exact_mod_cast h
  have h2 : min (i : Int) r ≤ min (j : Int) r := by
    apply min_le_min_right
    exact_mod_cast h
  omega

theorem New_sorted_closed (N G : Int) (h1 : 1 < G) (h2 : G < N) :
    List.Sorted (· ≤ ·) (New N G) := by
  rw [New_closed N G h1 h2]
  have hq : 0 ≤ N / G := Int.ediv_nonneg (by omega) (by omega)
  unfold List.Sorted
  rw [List.pairwise_map]
  exact (List.pairwise_lt_range _).imp (fun hij => bnd_mono _ _ hq _ _ (le_of_lt hij))


theorem New_single (N G : Int) (h : G ≤ 0 ∨ G = 1 ∨ G ≥ N) : New N G = [0, N] := by
  unfold New
  by_cases h0 : G ≤ 0
  · rw [if_pos h0]
  · rw [if_neg h0, if_pos (by omega)]

theorem New_head_last (N G : Int) (h1 : 1 < G) (h2 : G < N) :
    (New N G).head? = some 0 ∧ (New N G).getLast? = some N := by
  have hr0 : 0 ≤ N % G := Int.emod_nonneg _ (by omega)
  have hrG : N % G < G := Int.emod_lt_of_pos _ (by omega)
  have hNG : G * (N / G) + N % G = N := Int.ediv_add_emod N G
  rw [New_closed N G h1 h2]
  constructor
  · rw [List.range_eq_range', List.range'_succ]
    simp [bnd, hr0]
  · rw [List.range_succ]
    simp only [List.map_append, List.map_cons, List.map_nil, List.getLast?_concat]
    unfold bnd
    have : ((G.toNat : Nat) : Int) = G := by omega
    rw [this, min_eq_right (by omega)]
    simp [hNG]

/-- C1: for every total `N ≥ 0` and every integer `G`, the boundary list
`New N G` starts with 0, ends with `N`, is non-decreasing, every index of
`[0, N)` lies in exactly one of the consecutive half-open ranges, and any two
range sizes differ by at most 1. -/
theorem New_partitions (N G : Int) (hN : 0 ≤ N) :
    (New N G).head? = some 0 ∧ (New N G).getLast? = some N ∧
    List.Sorted (· ≤ ·) (New N G) ∧
    (∀ x : Int, 0 ≤ x → x < N →
      ∃! i : Nat, i + 1 < (New N G).length ∧
        (New N G).getD i 0 ≤ x ∧ x < (New N G).getD (i + 1) 0) ∧
    (∀ s ∈ sizes (New N G), ∀ t ∈ sizes (New N G), s - t ≤ 1) := by
  have key : (New N G).head? = some 0 ∧ (New N G).getLast? = some N ∧
      List.Sorted (· ≤ ·) (New N G) ∧
      (∀ s ∈ sizes (New N G), ∀ t ∈ sizes (New N G), s - t ≤ 1) := by
    by_cases h : G ≤ 0 ∨ G = 1 ∨ G ≥ N
    · rw [New_single N G h]
      refine ⟨rfl, rfl, by simp [List.Sorted, hN], ?_⟩
      intro s hs t ht
      simp [sizes] at hs ht
      omega
    · have h1 : 1 < G := by omega
      have h2 : G < N := by omega
      obtain ⟨hh, hl⟩ := New_head_last N G h1 h2
      refine ⟨hh, hl, New_sorted_closed N G h1 h2, ?_⟩
      rw [sizes_New N G h1 h2]
      intro s hs t ht
      simp only [List.mem_map, List.mem_range] at hs ht
      obtain ⟨i, _, rfl⟩ := hs
      obtain ⟨j, _, rfl⟩ := ht
      split_ifs <;> omega
  obtain ⟨hh, hl, hs, hsz⟩ := key
  exact ⟨hh, hl, hs, fun x hx0 hxN => locate_range _ hs 0 N x hh hl hx0 hxN, hsz⟩

theorem New_partitions_witness :
    (New 7 3).head? = some 0 ∧ (New 7 3).getLast? = some 7 ∧
    List.Sorted (· ≤ ·) (New 7 3) ∧
    (∀ x : Int, 0 ≤ x → x < 7 →
      ∃! i : Nat, i + 1 < (New 7 3).length ∧
        (New 7 3).getD i 0 ≤ x ∧ x < (New 7 3).getD (i + 1) 0) ∧
    (∀ s ∈ sizes (New 7 3), ∀ t ∈ sizes (New 7 3), s - t ≤ 1) :=
  New_partitions 7 3 (by decide)

/-- C2: for `1 < G < N`, `New N G` has exactly `G + 1` boundaries and, with
`q = N / G` and `r = N % G`, the first `r` ranges have size `q + 1` and the
remaining `G - r` ranges have size `q`; `New 5 3 = [0,2,4,5]` and
`New 10 3 = [0,4,7,10]`. -/
theorem New_balanced (N G : Int) (h1 : 1 < G) (h2 : G < N) :
    ((New N G).length : Int) = G + 1 ∧
    ((sizes (New N G)).length : Int) = G ∧
    (∀ i : Nat, (i : Int) < G →
      (sizes (New N G)).get? i = some (if (i : Int) < N % G then N / G + 1 else N / G)) ∧
    New 5 3 = [0, 2, 4, 5] ∧ New 10 3 = [0, 4, 7, 10] := by
  refine ⟨?_, ?_, ?_, by decide, by decide⟩
  · rw [New_closed N G h1 h2]
    simp only [List.length_map, List.length_range]
    omega
  · rw [sizes_New N G h1 h2]
    simp only [List.length_map, List.length_range]
    omega
  · intro i hi
    rw [sizes_New N G h1 h2]
    have : i < G.toNat := by omega
    simp [List.getElem?_map, List.getElem?_range this]

theorem New_balanced_witness :
    (((New 10 3).length : Int) = 3 + 1 ∧
    ((sizes (New 10 3)).length : Int) = 3 ∧
    (∀ i : Nat, (i : Int) < 3 →
      (sizes (New 10 3)).get? i = some (if (i : Int) < 10 % 3 then 10 / 3 + 1 else 10 / 3)) ∧
    New 5 3 = [0, 2, 4, 5] ∧ New 10 3 = [0, 4, 7, 10]) ∧ sizes (New 10 3) = [4, 3, 3] :=
  ⟨New_balanced 10 3 (by decide) (by decide), by decide⟩

/-- C3: for every `N ≥ 0` and every `G` with `G ≤ 0`, `G = 1` or `G ≥ N`,
`New N G` is exactly `[0, N]`; for `N = 0` it is `[0, 0]` whatever the number of
groups is. -/
theorem New_single_range (N G : Int) (_hN : 0 ≤ N) (hG : G ≤ 0 ∨ G = 1 ∨ G ≥ N) :
    New N G = [0, N] ∧ ∀ G0 : Int, New 0 G0 = [0, 0] :=
  ⟨New_single N G hG, fun G0 => New_single 0 G0 (by omega)⟩

theorem New_single_range_witness :
    (New 4 7 = [0, 4] ∧ ∀ G0 : Int, New 0 G0 = [0, 0])
    ∧ New 4 (-2) = [0, 4] ∧ New 4 1 = [0, 4] ∧ New 4 4 = [0, 4] :=
  ⟨New_single_range 4 7 (by decide) (by decide), by decide, by decide, by decide⟩

end indices

namespace search

theorem digitVal_le (c : UInt8) (hc : isDigitByte c = true) : digitVal c ≤ 9 := by
  simp only [isDigitByte, Bool.and_eq_true, decide_eq_true_eq] at hc
  unfold digitVal
  omega

theorem decimalFrom_nil (n : Nat) : decimalFrom n [] = n := rfl

theorem decimalFrom_cons (n : Nat) (c : UInt8) (cs : GoString) :
    decimalFrom n (c :: cs) = decimalFrom (n * 10 + digitVal c) cs := rfl

theorem parseUintLoop_nil (M n : Nat) : parseUintLoop M [] n = (n, none) := rfl

theorem parseUintLoop_cons (M n : Nat) (c : UInt8) (cs : GoString) :
    parseUintLoop M (c :: cs) n =
      if isDigitByte c then
        if n ≥ cutoff10 then (M, some ErrKind.ErrRange)
        else if wrap64 (wrap64 (n * 10) + digitVal c) < wrap64 (n * 10) ∨
            wrap64 (wrap64 (n * 10) + digitVal c) > M then (M, some ErrKind.ErrRange)
        else parseUintLoop M cs (wrap64 (wrap64 (n * 10) + digitVal c))
      else (0, some ErrKind.ErrSyntax) := rfl

theorem le_decimalFrom (s : GoString) : ∀ n : Nat, n ≤ decimalFrom n s := by
  induction s with
  | nil => intro n; exact le_refl _
  | cons c cs ih =>
    intro n
    have := ih (n * 10 + (digitVal c))
    rw [decimalFrom_cons]
    omega

theorem decimalFrom_lt (s : GoString) (hs : s.all isDigitByte = true) :
    ∀ n k : Nat, n < 10 ^ k → decimalFrom n s < 10 ^ (k + s.length) := by
  induction s with
  | nil => intro n k h; rw [decimalFrom_nil]; exact h
  | cons c cs ih =>
    intro n k h
    simp only [List.all_cons, Bool.and_eq_true] at hs
    have hc : digitVal c ≤ 9 := digitVal_le c hs.1
    have h2 : n * 10 + (digitVal c) < 10 ^ (k + 1) := by
      rw [pow_succ]; omega
    have := ih hs.2 _ (k + 1) h2
    rw [decimalFrom_cons, List.length_cons]
    have e : k + (cs.length + 1) = k + 1 + cs.length := by omega
    rw [e]; exact this

theorem parseUintLoop_eq (M : Nat) (hM : M ≤ maxUint64) (s : GoString) :
    ∀ n : Nat, n ≤ M →
      parseUintLoop M s n =
        if decimalFrom n (s.takeWhile isDigitByte) > M then (M, some ErrKind.ErrRange)
        else if s.all isDigitByte then (decimalFrom n s, none)
        else (0, some ErrKind.ErrSyntax) := by
  unfold maxUint64 at hM
  induction s with
  | nil =>
    intro n hn
    simp only [parseUintLoop_nil, List.takeWhile_nil, decimalFrom_nil, List.all_nil, if_true]
    rw [if_neg (by omega)]
  | cons c cs ih =>
    intro n hn
    by_cases hc : isDigitByte c = true
    · have hd : digitVal c ≤ 9 := digitVal_le c hc
      have hle := le_decimalFrom (cs.takeWhile isDigitByte) (n * 10 + (digitVal c))
      simp only [parseUintLoop_cons, hc, if_true, List.takeWhile_cons, decimalFrom_cons,
        List.all_cons, Bool.true_and, maxUint64, cutoff10, wrap64]
      by_cases h1 : n ≥ (2 ^ 64 - 1) / 10 + 1
      · rw [if_pos h1, if_pos (by omega)]
      · rw [if_neg h1]
        have e10 : n * 10 % 2 ^ 64 = n * 10 := Nat.mod_eq_of_lt (by omega)
        simp only [e10]
        by_cases h2 : n * 10 + (digitVal c) < 2 ^ 64
        · have e1 : (n * 10 + (digitVal c)) % 2 ^ 64 = n * 10 + (digitVal c) :=
            Nat.mod_eq_of_lt h2
          simp only [e1]
          by_cases h3 : n * 10 + (digitVal c) > M
          · rw [if_pos (Or.inr h3), if_pos (by omega)]
          · rw [if_neg (by omega), ih _ (by omega)]
        · have e1 : (n * 10 + (digitVal c)) % 2 ^ 64 = n * 10 + (digitVal c) - 2 ^ 64 := by
            rw [Nat.mod_eq_sub_mod (by omega)]
            exact Nat.mod_eq_of_lt (by omega)
          simp only [e1]
          rw [if_pos (Or.inl (by omega)), if_pos (by omega)]
    · simp only [Bool.not_eq_true] at hc
      simp only [parseUintLoop_cons, hc, List.takeWhile_cons, decimalFrom_nil, List.all_cons,
        Bool.false_and, Bool.false_eq_true, if_false]
      rw [if_neg (by omega)]

end search

namespace search

theorem subZero_gt (c : UInt8) : subZero c > 9 ↔ isDigitByte c = false := by
  have := UInt8.toNat_lt_size c
  simp only [UInt8.size] at this
  unfold subZero isDigitByte
  simp only [Bool.and_eq_false_iff, decide_eq_false_iff_not]
  omega

theorem subZero_eq (c : UInt8) (hc : isDigitByte c = true) : subZero c = digitVal c := by
  simp only [isDigitByte, Bool.and_eq_true, decide_eq_true_eq] at hc
  unfold subZero digitVal
  omega

theorem atoiFastLoop_nil (n : Int) : atoiFastLoop [] n = some n := rfl

theorem atoiFastLoop_cons (n : Int) (c : UInt8) (cs : GoString) :
    atoiFastLoop (c :: cs) n =
      if subZero c > 9 then none else atoiFastLoop cs (n * 10 + (subZero c : Int)) := rfl

theorem atoiFastLoop_eq (s : GoString) : ∀ n : Nat,
    atoiFastLoop s (n : Int) =
      if s.all isDigitByte then some ((decimalFrom n s : Nat) : Int) else none := by
  induction s with
  | nil => intro n; rfl
  | cons c cs ih =>
    intro n
    rw [atoiFastLoop_cons]
    by_cases hc : isDigitByte c = true
    · have h9 : ¬ subZero c > 9 := by
        rw [subZero_gt]; simp [hc]
      rw [if_neg h9, subZero_eq c hc]
      have := ih (n * 10 + digitVal c)
      push_cast at this
      rw [this, decimalFrom_cons]
      simp [hc]
    · simp only [Bool.not_eq_true] at hc
      rw [if_pos ((subZero_gt c).mpr hc)]
      simp [hc]

theorem ParseUint_eq (body : GoString) (hb : body ≠ []) :
    ParseUint body 0 =
      if decimalValue (body.takeWhile isDigitByte) > maxUint64 then
        (maxUint64, some ErrKind.ErrRange)
      else if body.all isDigitByte then (decimalValue body, none)
      else (0, some ErrKind.ErrSyntax) := by
  unfold ParseUint
  rw [if_neg hb]
  simp only [if_true]
  exact parseUintLoop_eq (2 ^ 64 - 1) (le_refl _) body 0 (Nat.zero_le _)

theorem takeWhile_all_digits (s : GoString) : (s.takeWhile isDigitByte).all isDigitByte = true := by
  rw [List.all_eq_true]
  intro x hx
  exact List.mem_takeWhile_imp hx

theorem takeWhile_eq_of_all (s : GoString) (h : s.all isDigitByte = true) :
    s.takeWhile isDigitByte = s := by
  rw [List.takeWhile_eq_self_iff]
  intro x hx
  exact (List.all_eq_true.mp h) x hx

theorem decimalValue_lt (s : GoString) (hs : s.all isDigitByte = true) :
    decimalValue s < 10 ^ s.length := by
  have := decimalFrom_lt s hs 0 0 (by norm_num)
  simpa [decimalValue] using this

theorem decimalValue_takeWhile_lt (s : GoString) (h : s.length < 19) :
    decimalValue (s.takeWhile isDigitByte) < 10 ^ 18 := by
  have h1 := decimalValue_lt _ (takeWhile_all_digits s)
  have h2 : (s.takeWhile isDigitByte).length ≤ 18 := by
    have := (List.takeWhile_prefix isDigitByte (l := s)).length_le
    omega
  calc decimalValue (s.takeWhile isDigitByte) < 10 ^ (s.takeWhile isDigitByte).length := h1
    _ ≤ 10 ^ 18 := Nat.pow_le_pow_right (by norm_num) h2

/-- The value computed by `ParseInt(s, 10, 0)` on a non-empty string. -/
theorem ParseInt_fst (c : UInt8) (cs : GoString) :
    (ParseInt (c :: cs) 0).1 =
      if isInteger (c :: cs) then clampInt64 (integerValue (c :: cs))
      else if overflowsUint64 (c :: cs) then
        (if (c :: cs).head? = some 45 then -(2 ^ 63) else 2 ^ 63 - 1)
      else 0 := by
  have hun : unsignedPart (c :: cs) = if c = 43 ∨ c = 45 then cs else c :: cs := rfl
  have hhead : (c :: cs).head? = some c := rfl
  have hP : ParseInt (c :: cs) 0 =
      match ParseUint (unsignedPart (c :: cs)) 0 with
      | (_, some ErrKind.ErrSyntax) => (0, some ⟨str "ParseInt", c :: cs, ErrKind.ErrSyntax⟩)
      | (un, _) =>
        if ¬ (c = 45) ∧ un ≥ 2 ^ 63 then
          (((2 ^ 63 - 1 : Nat) : Int), some ⟨str "ParseInt", c :: cs, ErrKind.ErrRange⟩)
        else if c = 45 ∧ un > 2 ^ 63 then
          (-((2 ^ 63 : Nat) : Int), some ⟨str "ParseInt", c :: cs, ErrKind.ErrRange⟩)
        else (if c = 45 then -(un : Int) else (un : Int), none) := rfl
  rw [hP]
  unfold isInteger overflowsUint64 integerValue
  rw [hhead]
  generalize unsignedPart (c :: cs) = body
  by_cases hb : body = []
  · subst hb
    simp [ParseUint, decimalValue, decimalFrom_nil, maxUint64]
  · rw [ParseUint_eq body hb]
    by_cases hov : decimalValue (body.takeWhile isDigitByte) > maxUint64
    · rw [if_pos hov]
      by_cases hall : body.all isDigitByte = true
      · rw [takeWhile_eq_of_all body hall] at hov
        unfold maxUint64 at hov
        by_cases hneg : c = 45
        · simp [hb, hall, hneg, clampInt64, maxUint64]
          omega
        · simp [hb, hall, hneg, clampInt64, maxUint64]
          omega
      · have hov2 : 18446744073709551615 < decimalValue (body.takeWhile isDigitByte) := hov
        by_cases hneg : c = 45
        · simp [hb, hall, hneg, hov2, maxUint64]
        · simp [hb, hall, hneg, hov2, maxUint64]
    · rw [if_neg hov]
      by_cases hall : body.all isDigitByte = true
      · rw [if_pos hall]
        rw [takeWhile_eq_of_all body hall] at hov
        unfold maxUint64 at hov
        by_cases hneg : c = 45
        · simp [hb, hall, hneg, clampInt64]
          split_ifs <;> simp <;> omega
        · simp [hb, hall, hneg, clampInt64]
          split_ifs <;> simp <;> omega
      · simp [hb, hall, hov]

theorem unsignedPart_cons (c : UInt8) (cs : GoString) :
    unsignedPart (c :: cs) = if c = 43 ∨ c = 45 then cs else c :: cs := rfl

theorem Atoi_slow (s : GoString) (h : ¬ (0 < s.length ∧ s.length < 19)) :
    (Atoi s).1 = (ParseInt s 0).1 := by
  unfold Atoi
  rw [if_neg h]
  rcases hp : ParseInt s 0 with ⟨i, _ | e⟩ <;> rfl

theorem Atoi_fast (c : UInt8) (cs : GoString) (h : (c :: cs).length < 19) :
    (Atoi (c :: cs)).1 =
      if (c = 45 ∨ c = 43) ∧ (unsignedPart (c :: cs)).length < 1 then 0
      else match atoiFastLoop (unsignedPart (c :: cs)) 0 with
        | none => 0
        | some n => if c = 45 then -n else n := by
  have hun : unsignedPart (c :: cs) = if c = 45 ∨ c = 43 then cs else c :: cs := by
    unfold unsignedPart
    by_cases h1 : c = 43 <;> by_cases h2 : c = 45 <;> simp [h1, h2]
  rw [hun]
  unfold Atoi
  rw [if_pos ⟨by simp, h⟩]
  simp only []
  split_ifs <;> first | rfl | (split <;> rfl)

/-- The value computed by `Atoi` on a non-empty string. -/
theorem Atoi_fst (s : GoString) (hs : s ≠ []) :
    (Atoi s).1 =
      if isInteger s then clampInt64 (integerValue s)
      else if overflowsUint64 s then (if s.head? = some 45 then -(2 ^ 63) else 2 ^ 63 - 1)
      else 0 := by
  cases s with
  | nil => exact absurd rfl hs
  | cons c cs =>
    by_cases hlen : (c :: cs).length < 19
    · rw [Atoi_fast c cs hlen]
      have hlb : (unsignedPart (c :: cs)).length < 19 := by
        rw [unsignedPart_cons]
        split_ifs
        · simp only [List.length_cons] at hlen; omega
        · exact hlen
      have hne : ¬ (c = 45 ∨ c = 43) → unsignedPart (c :: cs) ≠ [] := by
        intro h
        rw [unsignedPart_cons, if_neg (by tauto)]
        simp
      have hloop := atoiFastLoop_eq (unsignedPart (c :: cs)) 0
      simp only [Nat.cast_zero] at hloop
      have hsmall := decimalValue_takeWhile_lt _ hlb
      unfold isInteger overflowsUint64 integerValue
      have hhead : (c :: cs).head? = some c := rfl
      rw [hhead, hloop]
      generalize unsignedPart (c :: cs) = body at *
      by_cases hA : (c = 45 ∨ c = 43) ∧ body.length < 1
      · have hb : body = [] := List.length_eq_zero.mp (by omega)
        subst hb
        simp [hA, decimalValue, decimalFrom_nil, maxUint64]
      · rw [if_neg hA]
        have hb : body ≠ [] := by
          by_cases hs2 : c = 45 ∨ c = 43
          · intro hb
            apply hA
            exact ⟨hs2, by simp [hb]⟩
          · exact hne hs2
        by_cases hall : body.all isDigitByte = true
        · rw [takeWhile_eq_of_all body hall] at hsmall
          have hv : decimalFrom 0 body = decimalValue body := rfl
          by_cases hneg : c = 45
          · simp [hb, hall, hneg, clampInt64, hv]
            rw [min_eq_right (by omega), max_eq_right (by omega)]
          · simp [hb, hall, hneg, clampInt64, hv]
            rw [min_eq_right (by omega), max_eq_right (by omega)]
        · have : ¬ (decimalValue (body.takeWhile isDigitByte) > maxUint64) := by
            unfold maxUint64; omega
          simp [hb, hall, this]
    · rw [Atoi_slow _ (by omega)]
      exact ParseInt_fst c cs

theorem extractSearchLimit_eq (r : Request) :
    extractSearchLimit r =
      if r.query.Get (str "limit") ≠ [] ∧ (Atoi (r.query.Get (str "limit"))).1 > 0 then
        (if (Atoi (r.query.Get (str "limit"))).1 > 100 then 100
          else (Atoi (r.query.Get (str "limit"))).1)
      else 10 := by
  unfold extractSearchLimit softResultsLimit hardResultsLimit
  simp only []
  split_ifs <;> first | rfl | omega | (exfalso; tauto)

theorem Values.Get_absent (v : Values) (key : GoString) (h : v key = []) : v.Get key = [] := by
  unfold Values.Get
  rw [h]

/-- C4 (amended): `extractSearchLimit` always returns a value in `[1, 100]`;
it returns 10 when `limit` is absent, empty or an integer `<= 0`, `n` when it
is an integer `n` with `1 <= n <= 100`, and 100 when it is an integer above 100
(however large). For a value that is not a base-10 integer it returns 10,
except that it returns 100 when the value does not start with `-` and the
digits after its optional `+`, up to the first other byte, already exceed the
unsigned 64-bit range. `limit=0` gives 10 and `limit=500` gives 100. -/
theorem extractSearchLimit_spec (r : Request) :
    (1 ≤ extractSearchLimit r ∧ extractSearchLimit r ≤ 100) ∧
    (r.query (str "limit") = [] → extractSearchLimit r = 10) ∧
    (r.query.Get (str "limit") = [] → extractSearchLimit r = 10) ∧
    (isInteger (r.query.Get (str "limit")) = true →
      (integerValue (r.query.Get (str "limit")) ≤ 0 → extractSearchLimit r = 10) ∧
      (1 ≤ integerValue (r.query.Get (str "limit")) →
        integerValue (r.query.Get (str "limit")) ≤ 100 →
        extractSearchLimit r = integerValue (r.query.Get (str "limit"))) ∧
      (100 < integerValue (r.query.Get (str "limit")) → extractSearchLimit r = 100)) ∧
    (isInteger (r.query.Get (str "limit")) = false →
      extractSearchLimit r =
        if overflowsUint64 (r.query.Get (str "limit")) = true ∧
            (r.query.Get (str "limit")).head? ≠ some 45 then 100 else 10) ∧
    extractSearchLimit ⟨Values.ofList [(str "limit", [str "0"])]⟩ = 10 ∧
    extractSearchLimit ⟨Values.ofList [(str "limit", [str "500"])]⟩ = 100 := by
  have hempty : r.query.Get (str "limit") = [] → extractSearchLimit r = 10 := by
    intro h
    rw [extractSearchLimit_eq, if_neg (by simp [h])]
  refine ⟨?_, fun h => hempty (Values.Get_absent _ _ h), hempty, ?_, ?_, by decide, by decide⟩
  · rw [extractSearchLimit_eq]
    split_ifs <;> omega
  · intro hint
    have hne : r.query.Get (str "limit") ≠ [] := by
      intro h
      rw [h] at hint
      exact absurd hint (by decide)
    rw [extractSearchLimit_eq, Atoi_fst _ hne, if_pos hint]
    generalize integerValue (r.query.Get (str "limit")) = n
    unfold clampInt64
    refine ⟨?_, ?_, ?_⟩
    · intro h
      rw [if_neg (by simp only [not_and]; intro _; omega)]
    · intro h1 h2
      rw [if_pos ⟨hne, by omega⟩, if_neg (by omega)]
      omega
    · intro h
      rw [if_pos ⟨hne, by omega⟩, if_pos (by omega)]
  · intro hint
    by_cases hne : r.query.Get (str "limit") = []
    · rw [hempty hne, hne]
      decide
    · rw [extractSearchLimit_eq, Atoi_fst _ hne, hint]
      simp only [Bool.false_eq_true, if_false]
      by_cases hov : overflowsUint64 (r.query.Get (str "limit")) = true
      · by_cases hneg : (r.query.Get (str "limit")).head? = some 45
        · simp [hov, hneg, hne]
        · simp [hov, hneg, hne]
      · simp [hov, hne]

theorem extractSearchLimit_spec_witness :
    extractSearchLimit ⟨Values.ofList [(str "limit", [str "57"])]⟩ = 57 ∧
    extractSearchLimit ⟨Values.ofList [(str "limit", [str "abc"])]⟩ = 10 ∧
    extractSearchLimit ⟨Values.ofList [(str "limit", [str "99999999999999999999"])]⟩ = 100 ∧
    extractSearchLimit ⟨Values.ofList [(str "limit", [str "-3"])]⟩ = 10 :=
  ⟨((extractSearchLimit_spec ⟨Values.ofList [(str "limit", [str "57"])]⟩).2.2.2.1
      (by decide)).2.1 (by decide) (by decide),
   ((extractSearchLimit_spec ⟨Values.ofList [(str "limit", [str "abc"])]⟩).2.2.2.2.1
      (by decide)).trans (by decide),
   ((extractSearchLimit_spec ⟨Values.ofList [(str "limit", [str "99999999999999999999"])]⟩).2.2.2.1
      (by decide)).2.2 (by decide),
   ((extractSearchLimit_spec ⟨Values.ofList [(str "limit", [str "-3"])]⟩).2.2.2.1
      (by decide)).1 (by decide)⟩

/-- C4 (counterexample to the claim as stated): the value
`99999999999999999999x` is not a base-10 integer, yet the limit returned for it
is 100 and not 10: `Atoi` reports the overflow of the leading digits before it
reaches the `x`, and `extractSearchLimit` uses the value and drops the error. -/
theorem extractSearchLimit_not_integer_counterexample :
    isInteger (str "99999999999999999999x") = false ∧
    extractSearchLimit ⟨Values.ofList [(str "limit", [str "99999999999999999999x"])]⟩ = 100 ∧
    extractSearchLimit ⟨Values.ofList [(str "limit", [str "99999999999999999999x"])]⟩ ≠ 10 := by
  decide

end search

namespace search

theorem leadingInt_nil (x : Nat) : leadingInt [] x = some (x, []) := rfl

theorem leadingInt_cons (c : UInt8) (cs : GoString) (x : Nat) :
    leadingInt (c :: cs) x =
      if isDigitByte c then
        if x > pow63 / 10 then none
        else if wrap64 (x * 10 + digitVal c) > pow63 then none
        else leadingInt cs (wrap64 (x * 10 + digitVal c))
      else some (x, c :: cs) := rfl

theorem leadingInt_small (s : GoString) : ∀ (x k : Nat), x < 10 ^ k → k + s.length ≤ 18 →
    leadingInt s x =
      some (decimalFrom x (s.takeWhile isDigitByte), s.dropWhile isDigitByte) := by
  induction s with
  | nil => intro x k _ _; rfl
  | cons c cs ih =>
    intro x k hx hk
    simp only [List.length_cons] at hk
    have h18 : (10 : Nat) ^ k ≤ 10 ^ 17 := Nat.pow_le_pow_right (by norm_num) (by omega)
    rw [leadingInt_cons]
    by_cases hc : isDigitByte c = true
    · have hd := digitVal_le c hc
      have hx1 : x * 10 + digitVal c < 10 ^ (k + 1) := by rw [pow_succ]; omega
      have hw : wrap64 (x * 10 + digitVal c) = x * 10 + digitVal c := by
        unfold wrap64
        exact Nat.mod_eq_of_lt (by omega)
      rw [if_pos hc, hw, if_neg (by unfold pow63; omega), if_neg (by unfold pow63; omega),
        ih _ (k + 1) hx1 (by omega)]
      simp [List.takeWhile_cons, List.dropWhile_cons, hc, decimalFrom_cons]
    · simp only [Bool.not_eq_true] at hc
      simp [hc, List.takeWhile_cons, List.dropWhile_cons, decimalFrom_nil]

theorem decimalValue_four_lt (a b c d : UInt8)
    (h : ([a, b, c, d] : GoString).all isDigitByte = true) :
    decimalValue [a, b, c, d] < 10 ^ 4 := decimalValue_lt _ h

theorem timeAtoi_four (a b c d : UInt8) (ha : isDigitByte a = true) :
    timeAtoi [a, b, c, d] =
      if isDigitByte b ∧ isDigitByte c ∧ isDigitByte d then
        some ((decimalValue [a, b, c, d] : Nat) : Int)
      else none := by
  have hns : ¬ (a = 45 ∨ a = 43) := by
    rintro (h | h) <;> · rw [h] at ha; exact absurd ha (by decide)
  unfold timeAtoi
  simp only [List.head?_cons, Option.some.injEq]
  rw [if_neg (by tauto), leadingInt_small _ 0 0 (by norm_num) (by simp)]
  by_cases hb : isDigitByte b = true
  · by_cases hc : isDigitByte c = true
    · by_cases hd : isDigitByte d = true
      · have hall : ([a, b, c, d] : GoString).all isDigitByte = true := by simp [ha, hb, hc, hd]
        have hlt := decimalValue_four_lt a b c d hall
        have h63 : ¬ decimalValue [a, b, c, d] ≥ pow63 := by unfold pow63; omega
        simp only [List.takeWhile_cons, ha, hb, hc, hd, if_true, List.takeWhile_nil,
          List.dropWhile_cons, List.dropWhile_nil, and_self, ne_eq, not_true_eq_false, if_false]
        have hneg : ¬ a = 45 := by tauto
        rw [if_neg hneg]
        unfold toInt64
        change ¬ decimalFrom 0 [a, b, c, d] ≥ pow63 at h63
        rw [if_neg h63]
        rfl
      · simp [List.takeWhile_cons, List.dropWhile_cons, ha, hb, hc, hd]
    · simp [List.takeWhile_cons, List.dropWhile_cons, ha, hb, hc]
  · simp [List.takeWhile_cons, List.dropWhile_cons, ha, hb]


theorem isDigit_zero (c : UInt8) (cs : GoString) : isDigit (c :: cs) 0 = isDigitByte c := rfl

theorem isDigit_one (c d : UInt8) (cs : GoString) : isDigit (c :: d :: cs) 1 = isDigitByte d := rfl

theorem getnum_two (c d : UInt8) (cs : GoString) :
    getnum (c :: d :: cs) true =
      if isDigitByte c ∧ isDigitByte d then
        some (((decimalValue [c, d] : Nat) : Int), cs)
      else none := by
  unfold getnum
  rw [isDigit_zero, isDigit_one]
  by_cases hc : isDigitByte c = true
  · by_cases hd : isDigitByte d = true
    · simp [hc, hd, decimalValue, decimalFrom_cons, decimalFrom_nil]
    · simp [hc, hd]
  · simp [hc]

theorem getnum_one (c : UInt8) : getnum [c] true = none := by
  unfold getnum
  by_cases hc : isDigitByte c = true
  · simp [isDigit, hc]
  · simp [isDigit, hc]

theorem getnum_nil : getnum [] true = none := rfl

theorem parseStd_year (a b c d : UInt8) (rest : GoString) (y m dd : Int) :
    parseStd Std.stdLongYear ⟨a :: b :: c :: d :: rest, y, m, dd⟩ =
      if isDigitByte a ∧ isDigitByte b ∧ isDigitByte c ∧ isDigitByte d then
        some ⟨rest, ((decimalValue [a, b, c, d] : Nat) : Int), m, dd⟩
      else none := by
  unfold parseStd
  simp only [List.length_cons, isDigit_zero, List.take_succ_cons, List.take_zero,
    List.drop_succ_cons, List.drop_zero]
  by_cases ha : isDigitByte a = true
  · rw [if_neg (by simp [ha]), timeAtoi_four a b c d ha]
    by_cases h : isDigitByte b = true ∧ isDigitByte c = true ∧ isDigitByte d = true
    · rw [if_pos h, if_pos ⟨ha, h⟩]
    · rw [if_neg h, if_neg (by tauto)]
  · rw [if_pos (Or.inr ha), if_neg (by tauto)]

theorem parseStd_year_short (v : GoString) (y m dd : Int) (h : v.length < 4) :
    parseStd Std.stdLongYear ⟨v, y, m, dd⟩ = none := by
  unfold parseStd
  simp only []
  rw [if_pos (Or.inl h)]

theorem isLeap_eq (y : Int) (hy : 0 ≤ y) :
    isLeap y = decide (y % 4 = 0 ∧ (y % 100 ≠ 0 ∨ y % 400 = 0)) := by
  unfold isLeap
  rw [Int.tmod_eq_emod hy (by norm_num), Int.tmod_eq_emod hy (by norm_num),
    Int.tmod_eq_emod hy (by norm_num)]

theorem daysIn_eq (m y : Int) (h1 : 1 ≤ m) (h2 : m ≤ 12) (hy : 0 ≤ y) :
    daysIn m y = monthLength y m := by
  unfold daysIn monthLength
  rw [isLeap_eq y hy]
  interval_cases m <;> simp [daysBefore]

theorem monthLength_ge (m y : Int) : 28 ≤ monthLength y m := by
  unfold monthLength
  split_ifs <;> omega

theorem parseFinish_Y (v : GoString) (y : Int) :
    parseFinish ⟨v, y, -1, -1⟩ = some ⟨y, 1, 1⟩ := by
  simp [parseFinish, daysIn, daysBefore]

theorem parseFinish_YM (v : GoString) (y m : Int) (h1 : 1 ≤ m) (h2 : m ≤ 12) (hy : 0 ≤ y) :
    parseFinish ⟨v, y, m, -1⟩ = some ⟨y, m, 1⟩ := by
  have hge := monthLength_ge m y
  have e1 : (if m < 0 then (1 : Int) else m) = m := if_neg (by omega)
  have e2 : (if (-1 : Int) < 0 then (1 : Int) else -1) = 1 := by decide
  unfold parseFinish
  simp only [e1, e2]
  rw [daysIn_eq m y h1 h2 hy, if_neg (by omega)]

theorem parseFinish_YMD (v : GoString) (y m d : Int) (h1 : 1 ≤ m) (h2 : m ≤ 12) (hy : 0 ≤ y)
    (hd : 0 ≤ d) :
    parseFinish ⟨v, y, m, d⟩ = if 1 ≤ d ∧ d ≤ monthLength y m then some ⟨y, m, d⟩ else none := by
  have e1 : (if m < 0 then (1 : Int) else m) = m := if_neg (by omega)
  have e2 : (if d < 0 then (1 : Int) else d) = d := if_neg (by omega)
  unfold parseFinish
  simp only [e1, e2]
  rw [daysIn_eq m y h1 h2 hy]
  by_cases h : 1 ≤ d ∧ d ≤ monthLength y m
  · rw [if_pos h, if_neg (by omega)]
  · rw [if_neg h, if_pos (by omega)]

theorem skip_nil (v : GoString) : skip v [] = some v := by
  cases v <;> rfl

theorem skip_dash (c : UInt8) (cs : GoString) :
    skip (c :: cs) (str "-") = if c = 45 then some cs else none := by
  show skip (c :: cs) [45] = _
  unfold skip
  split_ifs
  · exact skip_nil cs
  · rfl

theorem skip_dash_nil : skip [] (str "-") = none := rfl

theorem parseLoop_nil (rest : GoString) (st : ParseState) :
    parseLoop [] rest st =
      match skip st.value rest with
      | none => none
      | some value => if value.length ≠ 0 then none else some { st with value := value } := rfl

theorem parseLoop_cons (pfx : GoString) (std : Std) (chunks : List (GoString × Std))
    (rest : GoString) (st : ParseState) :
    parseLoop ((pfx, std) :: chunks) rest st =
      match skip st.value pfx with
      | none => none
      | some value =>
        match parseStd std { st with value := value } with
        | none => none
        | some st1 => parseLoop chunks rest st1 := rfl

/-- The end of the loop: nothing may be left of the value. -/
theorem parseLoop_end (v : GoString) (y m d : Int) :
    parseLoop [] [] ⟨v, y, m, d⟩ = if v = [] then some ⟨[], y, m, d⟩ else none := by
  rw [parseLoop_nil]
  cases v with
  | nil => rfl
  | cons c cs => simp [skip_nil]

/-- The first layout element, `2006`, on a value of at least four bytes. -/
theorem parseLoop_year (a b c d : UInt8) (s4 : GoString) (chunks : List (GoString × Std)) :
    parseLoop (([], Std.stdLongYear) :: chunks) [] ⟨a :: b :: c :: d :: s4, 0, -1, -1⟩ =
      if isDigitByte a ∧ isDigitByte b ∧ isDigitByte c ∧ isDigitByte d then
        parseLoop chunks [] ⟨s4, ((decimalValue [a, b, c, d] : Nat) : Int), -1, -1⟩
      else none := by
  rw [parseLoop_cons]
  simp only [skip_nil, parseStd_year]
  split_ifs <;> rfl

theorem parseLoop_year_short (s : GoString) (h : s.length < 4) (chunks : List (GoString × Std)) :
    parseLoop (([], Std.stdLongYear) :: chunks) [] ⟨s, 0, -1, -1⟩ = none := by
  rw [parseLoop_cons]
  simp only [skip_nil, parseStd_year_short _ _ _ _ h]

/-- A layout element `-01` on a value of at least three bytes. -/
theorem parseLoop_month (e f g : UInt8) (s7 : GoString) (y m d : Int)
    (chunks : List (GoString × Std)) :
    parseLoop ((str "-", Std.stdZeroMonth) :: chunks) [] ⟨e :: f :: g :: s7, y, m, d⟩ =
      if e = 45 ∧ isDigitByte f ∧ isDigitByte g ∧ 1 ≤ ((decimalValue [f, g] : Nat) : Int) ∧
          ((decimalValue [f, g] : Nat) : Int) ≤ 12 then
        parseLoop chunks [] ⟨s7, y, ((decimalValue [f, g] : Nat) : Int), d⟩
      else none := by
  rw [parseLoop_cons]
  simp only [skip_dash]
  by_cases he : e = 45
  · rw [if_pos he]
    simp only [parseStd, getnum_two]
    by_cases hd : isDigitByte f = true ∧ isDigitByte g = true
    · rw [if_pos hd]
      simp only []
      by_cases hr : ((decimalValue [f, g] : Nat) : Int) ≤ 0 ∨
          12 < ((decimalValue [f, g] : Nat) : Int)
      · rw [if_pos hr, if_neg (by omega)]
      · rw [if_neg hr, if_pos ⟨he, hd.1, hd.2, by omega, by omega⟩]
    · rw [if_neg hd, if_neg (by tauto)]
  · rw [if_neg he, if_neg (by tauto)]

theorem parseLoop_month_short (s : GoString) (h : s.length < 3) (y m d : Int)
    (chunks : List (GoString × Std)) :
    parseLoop ((str "-", Std.stdZeroMonth) :: chunks) [] ⟨s, y, m, d⟩ = none := by
  rw [parseLoop_cons]
  rcases s with _ | ⟨e, _ | ⟨f, _ | ⟨g, s7⟩⟩⟩
  · rfl
  · simp only [skip_dash]
    split_ifs <;> simp [parseStd, getnum_nil]
  · simp only [skip_dash]
    split_ifs <;> simp [parseStd, getnum_one]
  · exfalso; simp only [List.length_cons] at h; omega

/-- A layout element `-02` on a value of at least three bytes. -/
theorem parseLoop_day (e f g : UInt8) (s7 : GoString) (y m d : Int)
    (chunks : List (GoString × Std)) :
    parseLoop ((str "-", Std.stdZeroDay) :: chunks) [] ⟨e :: f :: g :: s7, y, m, d⟩ =
      if e = 45 ∧ isDigitByte f ∧ isDigitByte g then
        parseLoop chunks [] ⟨s7, y, m, ((decimalValue [f, g] : Nat) : Int)⟩
      else none := by
  rw [parseLoop_cons]
  simp only [skip_dash]
  by_cases he : e = 45
  · rw [if_pos he]
    simp only [parseStd, getnum_two]
    by_cases hd : isDigitByte f = true ∧ isDigitByte g = true
    · rw [if_pos hd, if_pos ⟨he, hd⟩]
    · rw [if_neg hd, if_neg (by tauto)]
  · rw [if_neg he, if_neg (by tauto)]

theorem parseLoop_day_short (s : GoString) (h : s.length < 3) (y m d : Int)
    (chunks : List (GoString × Std)) :
    parseLoop ((str "-", Std.stdZeroDay) :: chunks) [] ⟨s, y, m, d⟩ = none := by
  rw [parseLoop_cons]
  rcases s with _ | ⟨e, _ | ⟨f, _ | ⟨g, s7⟩⟩⟩
  · rfl
  · simp only [skip_dash]
    split_ifs <;> simp [parseStd, getnum_nil]
  · simp only [skip_dash]
    split_ifs <;> simp [parseStd, getnum_one]
  · exfalso; simp only [List.length_cons] at h; omega

theorem all4 (a b c d : UInt8) :
    (([a, b, c, d] : GoString).all isDigitByte = true) ↔
      (isDigitByte a = true ∧ isDigitByte b = true ∧ isDigitByte c = true ∧
        isDigitByte d = true) := by
  simp only [List.all_cons, List.all_nil, Bool.and_true, Bool.and_eq_true]

theorem Parse_Y (s : GoString) : Parse ⟨[([], Std.stdLongYear)], []⟩ s = matchY s := by
  unfold Parse
  rcases s with _ | ⟨a, _ | ⟨b, _ | ⟨c, _ | ⟨d, s4⟩⟩⟩⟩
  · rfl
  · rw [parseLoop_year_short _ (by simp)]; rfl
  · rw [parseLoop_year_short _ (by simp)]; rfl
  · rw [parseLoop_year_short _ (by simp)]; rfl
  · simp only []
    rw [parseLoop_year, parseLoop_end]
    cases s4 with
    | nil =>
      simp only [matchY, all4, if_true]
      split_ifs
      · exact parseFinish_Y _ _
      · rfl
    | cons e s5 =>
      simp only [matchY]
      split_ifs <;> first | rfl | contradiction

theorem Parse_YM (s : GoString) :
    Parse ⟨[([], Std.stdLongYear), (str "-", Std.stdZeroMonth)], []⟩ s = matchYM s := by
  unfold Parse
  rcases s with _ | ⟨a, _ | ⟨b, _ | ⟨c, _ | ⟨d, s4⟩⟩⟩⟩
  · rfl
  · rw [parseLoop_year_short _ (by simp)]; rfl
  · rw [parseLoop_year_short _ (by simp)]; rfl
  · rw [parseLoop_year_short _ (by simp)]; rfl
  · simp only []
    rw [parseLoop_year]
    rcases s4 with _ | ⟨e, _ | ⟨f, _ | ⟨g, s7⟩⟩⟩
    · rw [parseLoop_month_short _ (by simp)]; simp [matchYM]
    · rw [parseLoop_month_short _ (by simp)]; simp [matchYM]
    · rw [parseLoop_month_short _ (by simp)]; simp [matchYM]
    · rw [parseLoop_month, parseLoop_end]
      cases s7 with
      | nil =>
        simp only [matchYM, if_true]
        by_cases hy : isDigitByte a = true ∧ isDigitByte b = true ∧ isDigitByte c = true ∧
            isDigitByte d = true
        · rw [if_pos hy]
          by_cases hm : e = 45 ∧ isDigitByte f = true ∧ isDigitByte g = true
          · have hall : (e = 45 ∧ ([a, b, c, d, f, g] : GoString).all isDigitByte = true) := by
              simp [hy, hm]
            rw [if_pos hall]
            by_cases hr : 1 ≤ ((decimalValue [f, g] : Nat) : Int) ∧
                ((decimalValue [f, g] : Nat) : Int) ≤ 12
            · rw [if_pos ⟨hm.1, hm.2.1, hm.2.2, hr.1, hr.2⟩, if_pos hr]
              exact parseFinish_YM _ _ _ hr.1 hr.2 (Int.ofNat_nonneg _)
            · rw [if_neg (by tauto), if_neg hr]
          · have hall : ¬ (e = 45 ∧ ([a, b, c, d, f, g] : GoString).all isDigitByte = true) := by
              simp only [List.all_cons, List.all_nil, Bool.and_true, Bool.and_eq_true]
              tauto
            rw [if_neg (by tauto), if_neg hall]
        · have hall : ¬ (e = 45 ∧ ([a, b, c, d, f, g] : GoString).all isDigitByte = true) := by
            simp only [List.all_cons, List.all_nil, Bool.and_true, Bool.and_eq_true]
            tauto
          rw [if_neg hy, if_neg hall]
      | cons h s8 =>
        simp only [matchYM]
        split_ifs <;> first | rfl | contradiction


theorem Parse_YMD (s : GoString) :
    Parse ⟨[([], Std.stdLongYear), (str "-", Std.stdZeroMonth), (str "-", Std.stdZeroDay)], []⟩ s
      = matchYMD s := by
  unfold Parse
  rcases s with _ | ⟨a, _ | ⟨b, _ | ⟨c, _ | ⟨d, s4⟩⟩⟩⟩
  · rfl
  · rw [parseLoop_year_short _ (by simp)]; rfl
  · rw [parseLoop_year_short _ (by simp)]; rfl
  · rw [parseLoop_year_short _ (by simp)]; rfl
  · simp only []
    rw [parseLoop_year]
    rcases s4 with _ | ⟨e, _ | ⟨f, _ | ⟨g, s7⟩⟩⟩
    · rw [parseLoop_month_short _ (by simp)]; simp [matchYMD]
    · rw [parseLoop_month_short _ (by simp)]; simp [matchYMD]
    · rw [parseLoop_month_short _ (by simp)]; simp [matchYMD]
    · rw [parseLoop_month]
      rcases s7 with _ | ⟨h, _ | ⟨i, _ | ⟨j, s10⟩⟩⟩
      · rw [parseLoop_day_short _ (by simp)]; simp [matchYMD]
      · rw [parseLoop_day_short _ (by simp)]; simp [matchYMD]
      · rw [parseLoop_day_short _ (by simp)]; simp [matchYMD]
      · rw [parseLoop_day, parseLoop_end]
        cases s10 with
        | nil =>
          simp only [matchYMD, if_true]
          by_cases hy : isDigitByte a = true ∧ isDigitByte b = true ∧ isDigitByte c = true ∧
              isDigitByte d = true
          · rw [if_pos hy]
            by_cases hm : e = 45 ∧ isDigitByte f = true ∧ isDigitByte g = true
            · by_cases hd : h = 45 ∧ isDigitByte i = true ∧ isDigitByte j = true
              · have hall : (e = 45 ∧ h = 45 ∧
                    ([a, b, c, d, f, g, i, j] : GoString).all isDigitByte = true) := by
                  simp [hy, hm, hd]
                rw [if_pos hall, if_pos hd]
                by_cases hr : 1 ≤ ((decimalValue [f, g] : Nat) : Int) ∧
                    ((decimalValue [f, g] : Nat) : Int) ≤ 12
                · rw [if_pos ⟨hm.1, hm.2.1, hm.2.2, hr.1, hr.2⟩]
                  refine Eq.trans (parseFinish_YMD _ _ _ _ hr.1 hr.2 (Int.ofNat_nonneg _)
                    (Int.ofNat_nonneg _)) ?_
                  by_cases hday : 1 ≤ ((decimalValue [i, j] : Nat) : Int) ∧
                      ((decimalValue [i, j] : Nat) : Int) ≤
                        monthLength ((decimalValue [a, b, c, d] : Nat) : Int)
                          ((decimalValue [f, g] : Nat) : Int)
                  · rw [if_pos hday, if_pos ⟨hr.1, hr.2, hday.1, hday.2⟩]
                  · rw [if_neg hday, if_neg (by tauto)]
                · rw [if_neg (by tauto), if_neg (by tauto)]
              · have hall : ¬ (e = 45 ∧ h = 45 ∧
                    ([a, b, c, d, f, g, i, j] : GoString).all isDigitByte = true) := by
                  simp only [List.all_cons, List.all_nil, Bool.and_true, Bool.and_eq_true]
                  tauto
                rw [if_neg hall, if_neg hd]
                split_ifs <;> rfl
            · have hall : ¬ (e = 45 ∧ h = 45 ∧
                  ([a, b, c, d, f, g, i, j] : GoString).all isDigitByte = true) := by
                simp only [List.all_cons, List.all_nil, Bool.and_true, Bool.and_eq_true]
                tauto
              rw [if_neg (by tauto), if_neg hall]
          · have hall : ¬ (e = 45 ∧ h = 45 ∧
                ([a, b, c, d, f, g, i, j] : GoString).all isDigitByte = true) := by
              simp only [List.all_cons, List.all_nil, Bool.and_true, Bool.and_eq_true]
              tauto
            rw [if_neg hy, if_neg hall]
        | cons k s11 =>
          simp only [matchYMD]
          split_ifs <;> first | rfl | contradiction


theorem readDate_eq (s : GoString) : readDate s = specReadDate s := by
  unfold readDate specReadDate
  by_cases hs : s = []
  · rw [if_pos hs, if_pos hs]
  · rw [if_neg hs, if_neg hs]
    simp only [allowedDateFormats, readDateLoop]
    rw [Parse_YMD, Parse_YM, Parse_Y]
    cases matchYMD s <;> cases matchYM s <;> cases matchY s <;> rfl

/-- C5: `readDate` yields no date for the empty input and for an input that
matches none of `YYYY-MM-DD`, `YYYY-MM`, `YYYY` as a valid calendar date;
otherwise it yields the date read by the first of these layouts, in that
order, that matches (a missing month or day being 1). Its result is a date or
no date, never an error. -/
theorem readDate_spec (s : GoString) :
    readDate s = specReadDate s ∧
    (s = [] → readDate s = none) ∧
    (matchYMD s = none → matchYM s = none → matchY s = none → readDate s = none) ∧
    (∀ t, matchYMD s = some t → readDate s = some t) ∧
    (∀ t, matchYMD s = none → matchYM s = some t → readDate s = some t) ∧
    (∀ t, matchYMD s = none → matchYM s = none → matchY s = some t → readDate s = some t) := by
  have hnil : matchYMD [] = none ∧ matchYM [] = none ∧ matchY [] = none := ⟨rfl, rfl, rfl⟩
  refine ⟨readDate_eq s, ?_, ?_, ?_, ?_, ?_⟩
  · intro h; rw [h]; rfl
  · intro h1 h2 h3
    rw [readDate_eq]; unfold specReadDate
    rw [h1, h2, h3]; simp
  · intro t h1
    have hs : s ≠ [] := by rintro rfl; rw [hnil.1] at h1; exact absurd h1 (by simp)
    rw [readDate_eq]; unfold specReadDate
    rw [if_neg hs, h1]
  · intro t h1 h2
    have hs : s ≠ [] := by rintro rfl; rw [hnil.2.1] at h2; exact absurd h2 (by simp)
    rw [readDate_eq]; unfold specReadDate
    rw [if_neg hs, h1, h2]
  · intro t h1 h2 h3
    have hs : s ≠ [] := by rintro rfl; rw [hnil.2.2] at h3; exact absurd h3 (by simp)
    rw [readDate_eq]; unfold specReadDate
    rw [if_neg hs, h1, h2, h3]

theorem readDate_spec_witness :
    readDate (str "2024-02-29") = some ⟨2024, 2, 29⟩ ∧
    readDate (str "2024-02") = some ⟨2024, 2, 1⟩ ∧
    readDate (str "2024") = some ⟨2024, 1, 1⟩ ∧
    readDate (str "2023-02-29") = none :=
  ⟨(readDate_spec (str "2024-02-29")).2.2.2.1 _ (by decide),
   (readDate_spec (str "2024-02")).2.2.2.2.1 _ (by decide) (by decide),
   (readDate_spec (str "2024")).2.2.2.2.2 _ (by decide) (by decide) (by decide),
   (readDate_spec (str "2023-02-29")).2.2.1 (by decide) (by decide) (by decide)⟩

end search

namespace search

theorem Split_nil (sep : UInt8) : Split sep [] = [[]] := rfl

theorem Split_cons (sep c : UInt8) (cs : GoString) :
    Split sep (c :: cs) =
      if c = sep then [] :: Split sep cs
      else match Split sep cs with
        | [] => [[c]]
        | part :: parts => (c :: part) :: parts := rfl

theorem Split_length (sep : UInt8) (s : GoString) : (Split sep s).length = s.count sep + 1 := by
  induction s with
  | nil => rfl
  | cons c cs ih =>
    rw [Split_cons]
    by_cases h : c = sep
    · rw [if_pos h, h, List.count_cons_self, List.length_cons, ih]
    · rw [if_neg h, List.count_cons_of_ne (Ne.symm h)]
      rcases hs : Split sep cs with _ | ⟨part, parts⟩
      · rw [hs] at ih; simp at ih
      · rw [hs] at ih; simpa using ih

theorem Split_count_zero (sep : UInt8) (s : GoString) (h : s.count sep = 0) :
    Split sep s = [s] := by
  induction s with
  | nil => rfl
  | cons c cs ih =>
    have hc : c ≠ sep := by
      intro hc
      rw [hc, List.count_cons_self] at h
      omega
    rw [List.count_cons_of_ne (Ne.symm hc)] at h
    rw [Split_cons, if_neg hc, ih h]

theorem Split_count_one (sep : UInt8) (s : GoString) (h : s.count sep = 1) :
    Split sep s =
      [s.takeWhile (fun c => c ≠ sep), (s.dropWhile (fun c => c ≠ sep)).drop 1] := by
  induction s with
  | nil => simp at h
  | cons c cs ih =>
    rw [Split_cons]
    by_cases hc : c = sep
    · rw [hc, List.count_cons_self] at h
      rw [if_pos hc, Split_count_zero sep cs (by omega)]
      simp [List.takeWhile_cons, List.dropWhile_cons, hc]
    · rw [List.count_cons_of_ne (Ne.symm hc)] at h
      rw [if_neg hc, ih h]
      simp [List.takeWhile_cons, List.dropWhile_cons, hc]

theorem readCryptoLoop_nil (out : List CryptoAddress) : readCryptoLoop [] out = out := rfl

theorem readCryptoLoop_cons (input : GoString) (inputs : List GoString)
    (out : List CryptoAddress) :
    readCryptoLoop (input :: inputs) out =
      if (Split 58 input).length = 2 then
        readCryptoLoop inputs
          (out ++ [⟨(Split 58 input).getD 0 [], (Split 58 input).getD 1 []⟩])
      else readCryptoLoop inputs out := rfl

theorem readCryptoLoop_eq (inputs : List GoString) :
    ∀ out, readCryptoLoop inputs out = out ++ inputs.filterMap cryptoPair := by
  induction inputs with
  | nil => intro out; simp [readCryptoLoop_nil]
  | cons input inputs ih =>
    intro out
    rw [readCryptoLoop_cons, Split_length]
    by_cases h : input.count 58 = 1
    · rw [if_pos (by omega), ih, Split_count_one 58 input h]
      simp [List.filterMap_cons, cryptoPair, h]
    · rw [if_neg (by omega), ih]
      simp [List.filterMap_cons, cryptoPair, h]

theorem takeWhile_append_dropWhile_sep (sep : UInt8) (s : GoString) (h : s.count sep = 1) :
    s = s.takeWhile (fun c => c ≠ sep) ++ [sep] ++ (s.dropWhile (fun c => c ≠ sep)).drop 1 ∧
    sep ∉ s.takeWhile (fun c => c ≠ sep) ∧
    sep ∉ (s.dropWhile (fun c => c ≠ sep)).drop 1 := by
  induction s with
  | nil => simp at h
  | cons c cs ih =>
    by_cases hc : c = sep
    · rw [hc, List.count_cons_self] at h
      have h0 : cs.count sep = 0 := by omega
      simp only [List.takeWhile_cons, List.dropWhile_cons, hc, ne_eq, not_true_eq_false,
        decide_False, Bool.false_eq_true, if_false, List.nil_append, List.drop_succ_cons,
        List.drop_zero, List.singleton_append, List.not_mem_nil, not_false_eq_true, true_and]
      exact List.count_eq_zero.mp h0
    · rw [List.count_cons_of_ne (Ne.symm hc)] at h
      obtain ⟨h1, h2, h3⟩ := ih h
      simp only [List.takeWhile_cons, List.dropWhile_cons, hc, ne_eq, not_false_eq_true,
        decide_True, if_true, List.cons_append, List.mem_cons]
      refine ⟨?_, ?_, h3⟩
      · congr 1
      · rintro (h4 | h4)
        · exact hc h4.symm
        · exact h2 h4

/-- C10: `readCryptoCurrencyAddresses` returns, in input order, one pair for
each value with exactly one colon and nothing for the other values; the pair
of such a value `s` is `(c, a)` with `s = c ++ ":" ++ a`, both parts copied
unchanged and free of colons. `XBT:x123456` yields the pair
`(XBT, x123456)`. -/
theorem readCryptoCurrencyAddresses_spec (inputs : List GoString) :
    readCryptoCurrencyAddresses inputs = inputs.filterMap cryptoPair ∧
    (∀ s : GoString, s.count 58 ≠ 1 → cryptoPair s = none) ∧
    (∀ s : GoString, s.count 58 = 1 →
      ∃ p : CryptoAddress, cryptoPair s = some p ∧
        s = p.Currency ++ str ":" ++ p.Address ∧ (58 : UInt8) ∉ p.Currency ∧
        (58 : UInt8) ∉ p.Address) ∧
    readCryptoCurrencyAddresses [str "XBT:x123456"] = [⟨str "XBT", str "x123456"⟩] := by
  refine ⟨?_, ?_, ?_, by decide⟩
  · unfold readCryptoCurrencyAddresses
    rw [readCryptoLoop_eq]
    rfl
  · intro s h
    unfold cryptoPair
    rw [if_neg h]
  · intro s h
    refine ⟨_, by unfold cryptoPair; rw [if_pos h], ?_⟩
    exact takeWhile_append_dropWhile_sep 58 s h

theorem readCryptoCurrencyAddresses_spec_witness :
    readCryptoCurrencyAddresses [str "XBT:x123456", str "abc", str "a:b:c", str "ETH:0xAb"] =
      [⟨str "XBT", str "x123456"⟩, ⟨str "ETH", str "0xAb"⟩] ∧
    cryptoPair (str "a:b:c") = none :=
  ⟨(readCryptoCurrencyAddresses_spec
      [str "XBT:x123456", str "abc", str "a:b:c", str "ETH:0xAb"]).1.trans (by decide),
   (readCryptoCurrencyAddresses_spec []).2.1 (str "a:b:c") (by decide)⟩

end search

namespace search

/-- C6: the entity returned by `readSearchRequest` (also when it returns an
error) has the lower-cased, trimmed `type` as its tag and the trimmed `name`
as its name; when the tag is one of person, business, organization, aircraft,
vessel, exactly the payload of that name is populated and its `Name` is the
entity's name; for any other tag no payload is populated. -/
theorem readSearchRequest_payload {F Addr : Type} (L : Lib F Addr) (r : Request) :
    (readSearchRequest L r).1.Typ = TrimSpace L (ToLower L (r.query.Get (str "type"))) ∧
    (readSearchRequest L r).1.Name = TrimSpace L (r.query.Get (str "name")) ∧
    ((readSearchRequest L r).1.Typ = str "person" →
      (∃ p, (readSearchRequest L r).1.Person = some p ∧ p.Name = (readSearchRequest L r).1.Name) ∧
      (readSearchRequest L r).1.Business = none ∧ (readSearchRequest L r).1.Organization = none ∧
      (readSearchRequest L r).1.Aircraft = none ∧ (readSearchRequest L r).1.Vessel = none) ∧
    ((readSearchRequest L r).1.Typ = str "business" →
      (∃ p, (readSearchRequest L r).1.Business = some p ∧ p.Name = (readSearchRequest L r).1.Name) ∧
      (readSearchRequest L r).1.Person = none ∧ (readSearchRequest L r).1.Organization = none ∧
      (readSearchRequest L r).1.Aircraft = none ∧ (readSearchRequest L r).1.Vessel = none) ∧
    ((readSearchRequest L r).1.Typ = str "organization" →
      (∃ p, (readSearchRequest L r).1.Organization = some p ∧
        p.Name = (readSearchRequest L r).1.Name) ∧
      (readSearchRequest L r).1.Person = none ∧ (readSearchRequest L r).1.Business = none ∧
      (readSearchRequest L r).1.Aircraft = none ∧ (readSearchRequest L r).1.Vessel = none) ∧
    ((readSearchRequest L r).1.Typ = str "aircraft" →
      (∃ p, (readSearchRequest L r).1.Aircraft = some p ∧ p.Name = (readSearchRequest L r).1.Name) ∧
      (readSearchRequest L r).1.Person = none ∧ (readSearchRequest L r).1.Business = none ∧
      (readSearchRequest L r).1.Organization = none ∧ (readSearchRequest L r).1.Vessel = none) ∧
    ((readSearchRequest L r).1.Typ = str "vessel" →
      (∃ p, (readSearchRequest L r).1.Vessel = some p ∧ p.Name = (readSearchRequest L r).1.Name) ∧
      (readSearchRequest L r).1.Person = none ∧ (readSearchRequest L r).1.Business = none ∧
      (readSearchRequest L r).1.Organization = none ∧ (readSearchRequest L r).1.Aircraft = none) ∧
    ((readSearchRequest L r).1.Typ ≠ str "person" →
      (readSearchRequest L r).1.Typ ≠ str "business" →
      (readSearchRequest L r).1.Typ ≠ str "organization" →
      (readSearchRequest L r).1.Typ ≠ str "aircraft" →
      (readSearchRequest L r).1.Typ ≠ str "vessel" →
      (readSearchRequest L r).1.Person = none ∧ (readSearchRequest L r).1.Business = none ∧
      (readSearchRequest L r).1.Organization = none ∧ (readSearchRequest L r).1.Aircraft = none ∧
      (readSearchRequest L r).1.Vessel = none) := by
  have d1 : str "person" ≠ str "business" := by decide
  have d2 : str "person" ≠ str "organization" := by decide
  have d3 : str "person" ≠ str "aircraft" := by decide
  have d4 : str "person" ≠ str "vessel" := by decide
  have d5 : str "business" ≠ str "organization" := by decide
  have d6 : str "business" ≠ str "aircraft" := by decide
  have d7 : str "business" ≠ str "vessel" := by decide
  have d8 : str "organization" ≠ str "aircraft" := by decide
  have d9 : str "organization" ≠ str "vessel" := by decide
  have d10 : str "aircraft" ≠ str "vessel" := by decide
  unfold readSearchRequest
  simp only [EntityPerson, EntityBusiness, EntityOrganization, EntityAircraft, EntityVessel]
  generalize TrimSpace L (ToLower L (r.query.Get (str "type"))) = t
  by_cases h1 : t = str "person"
  · subst h1
    simp [readSearchTail, d1, d2, d3, d4]
  · by_cases h2 : t = str "business"
    · subst h2
      simp [readSearchTail, d1.symm, d5, d6, d7]
    · by_cases h3 : t = str "organization"
      · subst h3
        simp [readSearchTail, d2.symm, d5.symm, d8, d9]
      · by_cases h4 : t = str "aircraft"
        · subst h4
          simp [readSearchTail, d3.symm, d6.symm, d8.symm, d10]
        · by_cases h5 : t = str "vessel"
          · subst h5
            rcases readInt (r.query.Get (str "tonnage")) with ⟨n, _ | e1⟩
            · rcases readInt (r.query.Get (str "grossRegisteredTonnage")) with ⟨g, _ | e2⟩
              · simp [readSearchTail, d4.symm, d7.symm, d9.symm, d10.symm]
              · simp [readSearchTail, d4.symm, d7.symm, d9.symm, d10.symm]
            · simp [readSearchTail, d4.symm, d7.symm, d9.symm, d10.symm]
          · simp [readSearchTail, h1, h2, h3, h4, h5]


theorem readSearchRequest_payload_witness :
    (∃ p, (readSearchRequest asciiLib
        (mkRequest [("type", [" Person "]), ("name", [" Ivan "])])).1.Person = some p ∧
      p.Name = (readSearchRequest asciiLib
        (mkRequest [("type", [" Person "]), ("name", [" Ivan "])])).1.Name) ∧
    (readSearchRequest asciiLib
        (mkRequest [("type", [" Person "]), ("name", [" Ivan "])])).1.Name = str "Ivan" ∧
    (readSearchRequest asciiLib
        (mkRequest [("type", ["vessel"]), ("tonnage", ["abc"])])).1.Person = none :=
  ⟨((readSearchRequest_payload asciiLib
      (mkRequest [("type", [" Person "]), ("name", [" Ivan "])])).2.2.1 (by decide)).1,
    by decide,
    ((readSearchRequest_payload asciiLib
      (mkRequest [("type", ["vessel"]), ("tonnage", ["abc"])])).2.2.2.2.2.2.1 (by decide)).2.1⟩

end search

namespace search

theorem readInt_abc :
    readInt (str "abc") = (0, some ⟨str "ParseInt", str "abc", ErrKind.ErrSyntax⟩) := by
  decide

theorem type_vessel {F Addr : Type} (L : Lib F Addr) :
    TrimSpace L (ToLower L (str "vessel")) = str "vessel" := by
  rfl

theorem readSearchRequest_bad_tonnage {F Addr : Type} (L : Lib F Addr) (r : Request)
    (ht : r.query.Get (str "type") = str "vessel")
    (hn : r.query.Get (str "tonnage") = str "abc") :
    (readSearchRequest L r).2 =
      some (GoError.wrapped (str "reading vessel tonnage: ")
        (GoError.num ⟨str "ParseInt", str "abc", ErrKind.ErrSyntax⟩)) := by
  have d4 : str "vessel" ≠ str "person" := by decide
  have d7 : str "vessel" ≠ str "business" := by decide
  have d9 : str "vessel" ≠ str "organization" := by decide
  have d10 : str "vessel" ≠ str "aircraft" := by decide
  unfold readSearchRequest
  simp only [EntityPerson, EntityBusiness, EntityOrganization, EntityAircraft, EntityVessel,
    ht, hn, type_vessel, readInt_abc, if_neg d4, if_neg d7, if_neg d9, if_neg d10, if_true]

/-- C7 (amended): for a request with `type=vessel` and `tonnage=abc` the v2
search handler responds with status 400 and the JSON body `{"error": m}`
where `m` begins with
`problem reading v2 search request: reading vessel tonnage: `, the reader's
message wrapped by the handler. -/
theorem search_bad_tonnage {F Addr SE : Type} (L : Lib F Addr) (service : Service F Addr SE)
    (r : Request) (ht : r.query.Get (str "type") = str "vessel")
    (hn : r.query.Get (str "tonnage") = str "abc") :
    (controller.search L service r).status = 400 ∧
    ∃ m, (controller.search L service r).body = [Body.errorResponse m] ∧
      m = str "problem reading v2 search request: reading vessel tonnage: " ++
        (str "strconv.ParseInt: parsing " ++ L.Quote (str "abc") ++ str ": invalid syntax") ∧
      str "problem reading v2 search request: reading vessel tonnage: " <+: m := by
  have h := readSearchRequest_bad_tonnage L r ht hn
  unfold controller.search
  rcases hr : readSearchRequest L r with ⟨req, err⟩
  rw [hr] at h
  simp only at h
  subst h
  refine ⟨rfl, _, rfl, ?_, ?_⟩
  · simp only [GoError.Error, ErrKind.Error]
    have : str "problem reading v2 search request: " ++ str "reading vessel tonnage: " =
        str "problem reading v2 search request: reading vessel tonnage: " := by decide
    rw [← this]
    simp only [List.append_assoc]
    rfl
  · exact List.prefix_append _ _


theorem search_bad_tonnage_witness :
    (controller.search asciiLib (fun _ _ => Except.ok ([] : List Unit))
        (mkRequest [("type", ["vessel"]), ("tonnage", ["abc"])])).status = 400 ∧
    ∃ m, (controller.search asciiLib (fun _ _ => Except.ok ([] : List Unit))
        (mkRequest [("type", ["vessel"]), ("tonnage", ["abc"])])).body = [Body.errorResponse m] ∧
      m = str "problem reading v2 search request: reading vessel tonnage: " ++
        (str "strconv.ParseInt: parsing " ++ asciiLib.Quote (str "abc") ++
          str ": invalid syntax") ∧
      str "problem reading v2 search request: reading vessel tonnage: " <+: m :=
  search_bad_tonnage asciiLib (fun _ _ => Except.ok ([] : List Unit))
    (mkRequest [("type", ["vessel"]), ("tonnage", ["abc"])]) (by decide) (by decide)

/-- C7 (counterexample to the claim as stated): for `type=vessel&tonnage=abc`
the handler answers 400 with an error message that starts with
`problem reading v2 search request: ` and therefore does not begin with
`reading vessel tonnage: `. -/
theorem search_bad_tonnage_counterexample :
    ∃ m, (controller.search asciiLib (fun _ _ => Except.ok ([] : List Unit))
        (mkRequest [("type", ["vessel"]), ("tonnage", ["abc"])])).body = [Body.errorResponse m] ∧
      (controller.search asciiLib (fun _ _ => Except.ok ([] : List Unit))
        (mkRequest [("type", ["vessel"]), ("tonnage", ["abc"])])).status = 400 ∧
      m = str "problem reading v2 search request: reading vessel tonnage: strconv.ParseInt: parsing " ++
        quoteASCII (str "abc") ++ str ": invalid syntax" ∧
      ¬ (str "reading vessel tonnage: " <+: m) :=
  ⟨_, rfl, rfl, by decide, by decide⟩

theorem extractSearchMinMatch_eq {F Addr : Type} (L : Lib F Addr) (r : Request) :
    extractSearchMinMatch L r =
      if r.query.Get (str "minMatch") ≠ [] then L.ParseFloat (r.query.Get (str "minMatch"))
      else L.zero := rfl

/-- C8 (amended): `extractSearchMinMatch` returns 0.0 when `minMatch` is absent
or empty and otherwise the value `strconv.ParseFloat` yields for it, unclamped;
this is the `MinMatch` the handler passes to `Service.Search`. For a parameter
that is an unsigned decimal integer of at most 15 digits the value is that
integer, which lies in `[0.0, 1.0]` only when it is 0 or 1. -/
theorem extractSearchMinMatch_spec {F Addr : Type} (L : Lib F Addr) (r : Request) :
    (r.query (str "minMatch") = [] → extractSearchMinMatch L r = L.zero) ∧
    (r.query.Get (str "minMatch") = [] → extractSearchMinMatch L r = L.zero) ∧
    (r.query.Get (str "minMatch") ≠ [] →
      extractSearchMinMatch L r = L.ParseFloat (r.query.Get (str "minMatch"))) ∧
    (searchOpts L r).MinMatch = extractSearchMinMatch L r ∧
    (∀ (SE : Type) (service : Service F Addr SE) (req : Entity Addr),
      readSearchRequest L r = (req, none) →
      controller.search L service r =
        match service req (searchOpts L r) with
        | Except.error _ => (ResponseWriter.fresh SE).WriteHeader StatusBadRequest
        | Except.ok entities =>
          ((ResponseWriter.fresh SE).SetHeader (str "Content-Type")
            (str "application/json")).Encode (Body.searchResponse entities)) ∧
    (r.query.Get (str "minMatch") ≠ [] →
      (r.query.Get (str "minMatch")).all isDigitByte = true →
      (r.query.Get (str "minMatch")).length ≤ 15 →
      extractSearchMinMatch asciiLib r =
        some ((decimalValue (r.query.Get (str "minMatch")) : Nat) : Rat) ∧
      (((0 : Rat) ≤ (decimalValue (r.query.Get (str "minMatch")) : Nat) ∧
        ((decimalValue (r.query.Get (str "minMatch")) : Nat) : Rat) ≤ 1) ↔
        decimalValue (r.query.Get (str "minMatch")) ≤ 1)) := by
  refine ⟨?_, ?_, ?_, rfl, ?_, ?_⟩
  · intro h
    rw [extractSearchMinMatch_eq, Values.Get_absent _ _ h]
    simp
  · intro h
    rw [extractSearchMinMatch_eq, h]
    simp
  · intro h
    rw [extractSearchMinMatch_eq, if_pos h]
  · intro SE service req h
    unfold controller.search
    rw [h]
  · intro h1 h2 h3
    refine ⟨?_, ?_⟩
    · rw [extractSearchMinMatch_eq, if_pos h1]
      show parseFloatDigits _ = _
      unfold parseFloatDigits
      rw [if_pos ⟨h1, h2, h3⟩]
    · constructor
      · rintro ⟨_, h⟩
        exact_mod_cast h
      · intro h
        exact ⟨by positivity, by exact_mod_cast h⟩

theorem extractSearchMinMatch_spec_witness :
    extractSearchMinMatch asciiLib (mkRequest [("minMatch", ["1"])]) = some 1 ∧
    extractSearchMinMatch asciiLib (mkRequest [("minMatch", [""])]) = some 0 ∧
    extractSearchMinMatch asciiLib (mkRequest []) = some 0 := by
  refine ⟨?_, (extractSearchMinMatch_spec asciiLib (mkRequest [("minMatch", [""])])).2.1
    (by decide), (extractSearchMinMatch_spec asciiLib (mkRequest [])).1 (by decide)⟩
  have h := ((extractSearchMinMatch_spec asciiLib (mkRequest [("minMatch", ["1"])])).2.2.2.2.2
    (by decide) (by decide) (by decide)).1
  rw [h]
  decide

/-- C8 (counterexample to the claim as stated): for `minMatch=2` the handler
passes `MinMatch = 2.0` to `Service.Search`, which is outside `[0.0, 1.0]`. -/
theorem extractSearchMinMatch_counterexample :
    extractSearchMinMatch asciiLib (mkRequest [("minMatch", ["2"])]) = some 2 ∧
    (searchOpts asciiLib (mkRequest [("minMatch", ["2"])])).MinMatch = some 2 ∧
    (controller.search asciiLib (fun _ opts => Except.ok [opts.MinMatch])
      (mkRequest [("minMatch", ["2"])])).body = [Body.searchResponse [some 2]] ∧
    ¬ ((0 : Rat) ≤ 2 ∧ (2 : Rat) ≤ 1) := by
  refine ⟨by decide, by decide, ?_, by norm_num⟩
  have h : (searchOpts asciiLib (mkRequest [("minMatch", ["2"])])).MinMatch = some 2 := by
    decide
  show [Body.searchResponse [(searchOpts asciiLib (mkRequest [("minMatch", ["2"])])).MinMatch]]
    = _
  rw [h]

end search

namespace search

/-- C9 (amended): for every request that `readSearchRequest` accepts, if
`Service.Search` fails the handler responds with status 400 and writes no
body; the handler's status is always 200 or 400, never 500. -/
theorem search_service_error {F Addr SE : Type} (L : Lib F Addr) (service : Service F Addr SE)
    (r : Request) (req : Entity Addr) (err : GoError)
    (hreq : readSearchRequest L r = (req, none))
    (hsvc : service req (searchOpts L r) = Except.error err) :
    (controller.search L service r).status = StatusBadRequest ∧
    (controller.search L service r).body = [] ∧
    (∀ (service0 : Service F Addr SE) (r0 : Request),
      (controller.search L service0 r0).status = 200 ∨
      (controller.search L service0 r0).status = StatusBadRequest) ∧
    (∀ (service0 : Service F Addr SE) (r0 : Request),
      (controller.search L service0 r0).status ≠ StatusInternalServerError) := by
  have hall : ∀ (service0 : Service F Addr SE) (r0 : Request),
      (controller.search L service0 r0).status = 200 ∨
      (controller.search L service0 r0).status = StatusBadRequest := by
    intro service0 r0
    unfold controller.search
    rcases readSearchRequest L r0 with ⟨req0, _ | e0⟩
    · simp only []
      rcases service0 req0 (searchOpts L r0) with e1 | es
      · right; rfl
      · left; rfl
    · right; rfl
  refine ⟨?_, ?_, hall, ?_⟩
  · unfold controller.search
    rw [hreq]
    simp only [hsvc]
    rfl
  · unfold controller.search
    rw [hreq]
    simp only [hsvc]
    rfl
  · intro service0 r0
    rcases hall service0 r0 with h | h <;> rw [h] <;> decide

theorem search_service_error_witness :
    (controller.search asciiLib
      (fun _ _ => (Except.error (GoError.other (str "index unavailable")) :
        Except GoError (List Unit)))
      (mkRequest [("name", ["transneft"]), ("type", ["business"])])).status = StatusBadRequest ∧
    (controller.search asciiLib
      (fun _ _ => (Except.error (GoError.other (str "index unavailable")) :
        Except GoError (List Unit)))
      (mkRequest [("name", ["transneft"]), ("type", ["business"])])).body = [] :=
  ⟨(search_service_error asciiLib
      (fun _ _ => (Except.error (GoError.other (str "index unavailable")) :
        Except GoError (List Unit)))
      (mkRequest [("name", ["transneft"]), ("type", ["business"])]) _
      (GoError.other (str "index unavailable")) rfl rfl).1,
   (search_service_error asciiLib
      (fun _ _ => (Except.error (GoError.other (str "index unavailable")) :
        Except GoError (List Unit)))
      (mkRequest [("name", ["transneft"]), ("type", ["business"])]) _
      (GoError.other (str "index unavailable")) rfl rfl).2.1⟩

/-- C9 (counterexample to the claim as stated): a request the reader accepts,
served by a `Service.Search` that fails, is answered with status 400 and not
with status 500. -/
theorem search_service_error_counterexample :
    (readSearchRequest asciiLib
      (mkRequest [("name", ["transneft"]), ("type", ["business"])])).2.isNone = true ∧
    (controller.search asciiLib
      (fun _ _ => (Except.error (GoError.other (str "index unavailable")) :
        Except GoError (List Unit)))
      (mkRequest [("name", ["transneft"]), ("type", ["business"])])).status = 400 ∧
    (controller.search asciiLib
      (fun _ _ => (Except.error (GoError.other (str "index unavailable")) :
        Except GoError (List Unit)))
      (mkRequest [("name", ["transneft"]), ("type", ["business"])])).status
        ≠ StatusInternalServerError := by
  refine ⟨by rfl, by rfl, ?_⟩
  show (400 : Nat) ≠ 500
  decide

end search

namespace search

theorem ParseUint32_eq (body : GoString) (hb : body ≠ []) :
    ParseUint body 32 =
      if decimalValue (body.takeWhile isDigitByte) > 2 ^ 32 - 1 then
        (2 ^ 32 - 1, some ErrKind.ErrRange)
      else if body.all isDigitByte then (decimalValue body, none)
      else (0, some ErrKind.ErrSyntax) := by
  unfold ParseUint
  rw [if_neg hb]
  simp only [OfNat.ofNat_ne_zero, if_false]
  exact parseUintLoop_eq (2 ^ 32 - 1) (by unfold maxUint64; norm_num) body 0 (Nat.zero_le _)

/-- `ParseInt(s, 10, 32)` succeeds exactly on the base-10 integers that fit in
32 signed bits. -/
theorem ParseInt32_ok (s : GoString) : (ParseInt s 32).2 = none ↔ fitsInt32 s = true := by
  cases s with
  | nil => simp [ParseInt, fitsInt32, isInteger, unsignedPart]
  | cons c cs =>
    have hhead : (c :: cs).head? = some c := rfl
    have hP : ParseInt (c :: cs) 32 =
        match ParseUint (unsignedPart (c :: cs)) 32 with
        | (_, some ErrKind.ErrSyntax) =>
          (0, some ⟨str "ParseInt", c :: cs, ErrKind.ErrSyntax⟩)
        | (un, _) =>
          if ¬ (c = 45) ∧ un ≥ 2 ^ 31 then
            (((2 ^ 31 - 1 : Nat) : Int), some ⟨str "ParseInt", c :: cs, ErrKind.ErrRange⟩)
          else if c = 45 ∧ un > 2 ^ 31 then
            (-((2 ^ 31 : Nat) : Int), some ⟨str "ParseInt", c :: cs, ErrKind.ErrRange⟩)
          else (if c = 45 then -(un : Int) else (un : Int), none) := rfl
    rw [hP]
    unfold fitsInt32 isInteger integerValue
    rw [hhead]
    generalize unsignedPart (c :: cs) = body
    by_cases hb : body = []
    · subst hb
      simp [ParseUint]
    · rw [ParseUint32_eq body hb]
      by_cases hov : decimalValue (body.takeWhile isDigitByte) > 2 ^ 32 - 1
      · rw [if_pos hov]
        by_cases hall : body.all isDigitByte = true
        · rw [takeWhile_eq_of_all body hall] at hov
          by_cases hneg : c = 45
          · simp [hb, hall, hneg]
            omega
          · simp [hb, hall, hneg]
            omega
        · by_cases hneg : c = 45
          · simp [hb, hall, hneg]
          · simp [hb, hall, hneg]
      · rw [if_neg hov]
        by_cases hall : body.all isDigitByte = true
        · rw [if_pos hall]
          rw [takeWhile_eq_of_all body hall] at hov
          by_cases hneg : c = 45
          · simp [hb, hall, hneg]
            split_ifs <;> simp <;> omega
          · simp [hb, hall, hneg]
            split_ifs <;> simp <;> omega
        · simp [hb, hall]

theorem readInt_ok (s : GoString) : (readInt s).2 = none ↔ fitsInt32 s = true :=
  ParseInt32_ok s

theorem fitsInt32_nil : fitsInt32 [] = false := by decide

/-- C12: `readSearchRequest` returns an error exactly when the lower-cased,
trimmed type is vessel and `tonnage` or `grossRegisteredTonnage` is not a
base-10 integer that fits in 32 signed bits; a vessel request that omits
either parameter is therefore rejected, and a request of any other type is
never rejected. -/
theorem readSearchRequest_error_iff {F Addr : Type} (L : Lib F Addr) (r : Request) :
    ((readSearchRequest L r).2.isSome = true ↔
      (TrimSpace L (ToLower L (r.query.Get (str "type"))) = str "vessel" ∧
        (fitsInt32 (r.query.Get (str "tonnage")) = false ∨
          fitsInt32 (r.query.Get (str "grossRegisteredTonnage")) = false))) ∧
    (TrimSpace L (ToLower L (r.query.Get (str "type"))) = str "vessel" →
      (r.query (str "tonnage") = [] ∨ r.query (str "grossRegisteredTonnage") = [] ∨
        r.query.Get (str "tonnage") = [] ∨ r.query.Get (str "grossRegisteredTonnage") = []) →
      (readSearchRequest L r).2.isSome = true) ∧
    (TrimSpace L (ToLower L (r.query.Get (str "type"))) ≠ str "vessel" →
      (readSearchRequest L r).2 = none) := by
  have d4 : str "vessel" ≠ str "person" := by decide
  have d7 : str "vessel" ≠ str "business" := by decide
  have d9 : str "vessel" ≠ str "organization" := by decide
  have d10 : str "vessel" ≠ str "aircraft" := by decide
  have key : (readSearchRequest L r).2.isSome = true ↔
      (TrimSpace L (ToLower L (r.query.Get (str "type"))) = str "vessel" ∧
        (fitsInt32 (r.query.Get (str "tonnage")) = false ∨
          fitsInt32 (r.query.Get (str "grossRegisteredTonnage")) = false)) := by
    have h1 := readInt_ok (r.query.Get (str "tonnage"))
    have h2 := readInt_ok (r.query.Get (str "grossRegisteredTonnage"))
    unfold readSearchRequest
    simp only [EntityPerson, EntityBusiness, EntityOrganization, EntityAircraft, EntityVessel]
    generalize TrimSpace L (ToLower L (r.query.Get (str "type"))) = t
    by_cases hv : t = str "vessel"
    · subst hv
      simp only [if_neg d4, if_neg d7, if_neg d9, if_neg d10, if_true, true_and]
      rcases hr1 : readInt (r.query.Get (str "tonnage")) with ⟨n, _ | e1⟩
      · rw [hr1] at h1
        have f1 : fitsInt32 (r.query.Get (str "tonnage")) = true := h1.mp rfl
        rcases hr2 : readInt (r.query.Get (str "grossRegisteredTonnage")) with ⟨g, _ | e2⟩
        · rw [hr2] at h2
          have f2 : fitsInt32 (r.query.Get (str "grossRegisteredTonnage")) = true := h2.mp rfl
          simp [readSearchTail, f1, f2]
        · rw [hr2] at h2
          have f2 : fitsInt32 (r.query.Get (str "grossRegisteredTonnage")) = false := by
            cases hf : fitsInt32 (r.query.Get (str "grossRegisteredTonnage")) with
            | false => rfl
            | true => exact absurd (h2.mpr hf) (by simp)
          simp [f1, f2]
      · rw [hr1] at h1
        have f1 : fitsInt32 (r.query.Get (str "tonnage")) = false := by
          cases hf : fitsInt32 (r.query.Get (str "tonnage")) with
          | false => rfl
          | true => exact absurd (h1.mpr hf) (by simp)
        simp [f1]
    · simp only [hv, false_and, iff_false]
      split_ifs <;> first | contradiction | simp [readSearchTail]
  refine ⟨key, ?_, ?_⟩
  · intro hv hm
    rw [key]
    refine ⟨hv, ?_⟩
    rcases hm with h | h | h | h
    · left; rw [Values.Get_absent _ _ h]; exact fitsInt32_nil
    · right; rw [Values.Get_absent _ _ h]; exact fitsInt32_nil
    · left; rw [h]; exact fitsInt32_nil
    · right; rw [h]; exact fitsInt32_nil
  · intro hv
    have : ¬ (readSearchRequest L r).2.isSome = true := by
      rw [key]; tauto
    cases h : (readSearchRequest L r).2 with
    | none => rfl
    | some e => rw [h] at this; simp at this

theorem readSearchRequest_error_iff_witness :
    (readSearchRequest asciiLib
      (mkRequest [("type", ["vessel"]), ("tonnage", ["120"])])).2.isSome = true ∧
    (readSearchRequest asciiLib
      (mkRequest [("type", ["vessel"]), ("tonnage", ["120"]),
        ("grossRegisteredTonnage", ["2147483648"])])).2.isSome = true ∧
    (readSearchRequest asciiLib
      (mkRequest [("type", ["vessel"]), ("tonnage", ["120"]),
        ("grossRegisteredTonnage", ["-2147483648"])])).2.isSome = false ∧
    (readSearchRequest asciiLib
      (mkRequest [("type", ["aircraft"]), ("tonnage", ["abc"])])).2 = none :=
  ⟨(readSearchRequest_error_iff asciiLib
      (mkRequest [("type", ["vessel"]), ("tonnage", ["120"])])).2.1 (by decide)
      (Or.inr (Or.inl (by decide))),
   (readSearchRequest_error_iff asciiLib
      (mkRequest [("type", ["vessel"]), ("tonnage", ["120"]),
        ("grossRegisteredTonnage", ["2147483648"])])).1.mpr ⟨by decide, Or.inr (by decide)⟩,
   by decide,
   (readSearchRequest_error_iff asciiLib
      (mkRequest [("type", ["aircraft"]), ("tonnage", ["abc"])])).2.2 (by decide)⟩

theorem readDate_built : readDate (str "built") = none := by decide

/-- C13: whatever the request carries, a `built` parameter included, the
Aircraft or Vessel payload produced by `readSearchRequest` has no Built date:
`readDate` is applied to the literal text `built`, which no layout accepts. -/
theorem readSearchRequest_built_absent {F Addr : Type} (L : Lib F Addr) (r : Request) :
    readDate (str "built") = none ∧
    (∀ p, (readSearchRequest L r).1.Aircraft = some p → p.Built = none) ∧
    (∀ p, (readSearchRequest L r).1.Vessel = some p → p.Built = none) ∧
    (TrimSpace L (ToLower L (r.query.Get (str "type"))) = str "aircraft" →
      ∃ p, (readSearchRequest L r).1.Aircraft = some p ∧ p.Built = none) ∧
    (TrimSpace L (ToLower L (r.query.Get (str "type"))) = str "vessel" →
      ∃ p, (readSearchRequest L r).1.Vessel = some p ∧ p.Built = none) := by
  have hb := readDate_built
  have d1 : str "person" ≠ str "business" := by decide
  have d2 : str "person" ≠ str "organization" := by decide
  have d3 : str "person" ≠ str "aircraft" := by decide
  have d4 : str "person" ≠ str "vessel" := by decide
  have d5 : str "business" ≠ str "organization" := by decide
  have d6 : str "business" ≠ str "aircraft" := by decide
  have d7 : str "business" ≠ str "vessel" := by decide
  have d8 : str "organization" ≠ str "aircraft" := by decide
  have d9 : str "organization" ≠ str "vessel" := by decide
  have d10 : str "aircraft" ≠ str "vessel" := by decide
  refine ⟨hb, ?_⟩
  unfold readSearchRequest
  simp only [EntityPerson, EntityBusiness, EntityOrganization, EntityAircraft, EntityVessel]
  generalize TrimSpace L (ToLower L (r.query.Get (str "type"))) = t
  by_cases h1 : t = str "person"
  · subst h1
    simp [readSearchTail, d1, d2, d3, d4]
  · by_cases h2 : t = str "business"
    · subst h2
      simp [readSearchTail, d1.symm, d5, d6, d7]
    · by_cases h3 : t = str "organization"
      · subst h3
        simp [readSearchTail, d2.symm, d5.symm, d8, d9]
      · by_cases h4 : t = str "aircraft"
        · subst h4
          simp [readSearchTail, d3.symm, d6.symm, d8.symm, d10, hb]
        · by_cases h5 : t = str "vessel"
          · subst h5
            rcases readInt (r.query.Get (str "tonnage")) with ⟨n, _ | e1⟩
            · rcases readInt (r.query.Get (str "grossRegisteredTonnage")) with ⟨g, _ | e2⟩
              · simp [readSearchTail, d4.symm, d7.symm, d9.symm, d10.symm, hb]
              · simp [readSearchTail, d4.symm, d7.symm, d9.symm, d10.symm, hb]
            · simp [readSearchTail, d4.symm, d7.symm, d9.symm, d10.symm, hb]
          · simp [readSearchTail, h1, h2, h3, h4, h5]

theorem readSearchRequest_built_absent_witness :
    (∃ p, (readSearchRequest asciiLib
        (mkRequest [("type", ["aircraft"]), ("built", ["2020-01-01"])])).1.Aircraft = some p ∧
      p.Built = none) ∧
    (∃ p, (readSearchRequest asciiLib
        (mkRequest [("type", ["vessel"]), ("built", ["2020-01-01"]), ("tonnage", ["1"]),
          ("grossRegisteredTonnage", ["2"])])).1.Vessel = some p ∧
      p.Built = none) ∧
    readDate (str "2020-01-01") = some ⟨2020, 1, 1⟩ :=
  ⟨(readSearchRequest_built_absent asciiLib
      (mkRequest [("type", ["aircraft"]), ("built", ["2020-01-01"])])).2.2.2.1 (by decide),
   (readSearchRequest_built_absent asciiLib
      (mkRequest [("type", ["vessel"]), ("built", ["2020-01-01"]), ("tonnage", ["1"]),
        ("grossRegisteredTonnage", ["2"])])).2.2.2.2 (by decide),
   by decide⟩

theorem str_dash_01 : str "-01" = [45, 48, 49] := by decide

theorem str_dash_01_01 : str "-01-01" = [45, 48, 49, 45, 48, 49] := by decide

theorem str_dash : str "-" = [45] := by decide

theorem isDigitByte_zero_one : isDigitByte 48 = true ∧ isDigitByte 49 = true := by decide

theorem decimalValue_01 : decimalValue [48, 49] = 1 := by decide

theorem one_le_monthLength (y m : Int) : 1 ≤ monthLength y m := by
  have := monthLength_ge m y
  omega

/-- C14: `readDate` does not retain the precision of its input. For a
four-digit year `Y`, the inputs `Y`, `Y-01` and `Y-01-01` all yield 1 January
of `Y`; for a valid two-digit month `M`, the inputs `Y-M` and `Y-M-01` both
yield the first day of that month. -/
theorem readDate_precision (y1 y2 y3 y4 m1 m2 : UInt8)
    (hy : ([y1, y2, y3, y4] : GoString).all isDigitByte = true)
    (hm : ([m1, m2] : GoString).all isDigitByte = true)
    (hm1 : 1 ≤ decimalValue [m1, m2]) (hm2 : decimalValue [m1, m2] ≤ 12) :
    readDate [y1, y2, y3, y4] = some ⟨(decimalValue [y1, y2, y3, y4] : Int), 1, 1⟩ ∧
    readDate ([y1, y2, y3, y4] ++ str "-01") = readDate [y1, y2, y3, y4] ∧
    readDate ([y1, y2, y3, y4] ++ str "-01-01") = readDate [y1, y2, y3, y4] ∧
    readDate ([y1, y2, y3, y4] ++ str "-" ++ [m1, m2]) =
      some ⟨(decimalValue [y1, y2, y3, y4] : Int), (decimalValue [m1, m2] : Int), 1⟩ ∧
    readDate ([y1, y2, y3, y4] ++ str "-" ++ [m1, m2] ++ str "-01") =
      readDate ([y1, y2, y3, y4] ++ str "-" ++ [m1, m2]) := by
  have hd := isDigitByte_zero_one
  have hy' := hy
  have hm' := hm
  simp only [List.all_cons, List.all_nil, Bool.and_true, Bool.and_eq_true] at hy' hm'
  have hml : (1 : Int) ≤ monthLength (decimalValue [y1, y2, y3, y4] : Int) 1 :=
    one_le_monthLength _ _
  have hml2 : (1 : Int) ≤ monthLength (decimalValue [y1, y2, y3, y4] : Int)
      (decimalValue [m1, m2] : Int) := one_le_monthLength _ _
  have hmi1 : (1 : Int) ≤ (decimalValue [m1, m2] : Int) := by exact_mod_cast hm1
  have hmi2 : (decimalValue [m1, m2] : Int) ≤ 12 := by exact_mod_cast hm2
  have e1 : readDate [y1, y2, y3, y4] = some ⟨(decimalValue [y1, y2, y3, y4] : Int), 1, 1⟩ := by
    rw [readDate_eq]
    simp [specReadDate, matchYMD, matchYM, matchY, hy']
  have e2 : readDate ([y1, y2, y3, y4] ++ str "-01") =
      some ⟨(decimalValue [y1, y2, y3, y4] : Int), 1, 1⟩ := by
    rw [readDate_eq, str_dash_01]
    simp [specReadDate, matchYMD, matchYM, hy', hd, decimalValue_01]
  have e3 : readDate ([y1, y2, y3, y4] ++ str "-01-01") =
      some ⟨(decimalValue [y1, y2, y3, y4] : Int), 1, 1⟩ := by
    rw [readDate_eq, str_dash_01_01]
    simp [specReadDate, matchYMD, hy', hd, decimalValue_01, hml]
  have e4 : readDate ([y1, y2, y3, y4] ++ str "-" ++ [m1, m2]) =
      some ⟨(decimalValue [y1, y2, y3, y4] : Int), (decimalValue [m1, m2] : Int), 1⟩ := by
    rw [readDate_eq, str_dash]
    simp [specReadDate, matchYMD, matchYM, hy', hm', hmi1, hmi2]
  have e5 : readDate ([y1, y2, y3, y4] ++ str "-" ++ [m1, m2] ++ str "-01") =
      some ⟨(decimalValue [y1, y2, y3, y4] : Int), (decimalValue [m1, m2] : Int), 1⟩ := by
    rw [readDate_eq, str_dash, str_dash_01]
    simp [specReadDate, matchYMD, hy', hm', hd, decimalValue_01, hmi1, hmi2, hml2]
  exact ⟨e1, e2.trans e1.symm, e3.trans e1.symm, e4, e5.trans e4.symm⟩

theorem readDate_precision_witness :
    readDate (str "1970") = some ⟨1970, 1, 1⟩ ∧
    readDate (str "1970-01") = readDate (str "1970") ∧
    readDate (str "1970-01-01") = readDate (str "1970") ∧
    readDate (str "1970-03") = some ⟨1970, 3, 1⟩ ∧
    readDate (str "1970-03-01") = readDate (str "1970-03") :=
  readDate_precision 49 57 55 48 48 51 (by decide) (by decide) (by decide) (by decide)

end search

namespace server

open search

theorem utf8First_cases (b : Nat) (h : b ≥ 128) (hlt : b < 256) :
    utf8First b = 0xF1 ∨ (utf8First b = 0x02 ∧ 0xC2 ≤ b ∧ b < 0xE0) ∨
    (utf8First b = 0x13 ∧ b = 0xE0) ∨ (utf8First b = 0x03 ∧ 0xE1 ≤ b ∧ b < 0xF0) ∨
    (utf8First b = 0x23 ∧ b = 0xED) ∨ (utf8First b = 0x34 ∧ b = 0xF0) ∨
    (utf8First b = 0x04 ∧ 0xF1 ≤ b ∧ b < 0xF4) ∨ (utf8First b = 0x44 ∧ b = 0xF4) := by
  unfold utf8First
  rw [if_neg (by omega)]
  by_cases h1 : b < 0xC2
  · rw [if_pos h1]; left; rfl
  rw [if_neg h1]
  by_cases h2 : b < 0xE0
  · rw [if_pos h2]; right; left; exact ⟨rfl, by omega, h2⟩
  rw [if_neg h2]
  by_cases h3 : b = 0xE0
  · rw [if_pos h3]; right; right; left; exact ⟨rfl, h3⟩
  rw [if_neg h3]
  by_cases h4 : b < 0xED
  · rw [if_pos h4]; right; right; right; left; exact ⟨rfl, by omega, by omega⟩
  rw [if_neg h4]
  by_cases h5 : b = 0xED
  · rw [if_pos h5]; right; right; right; right; left; exact ⟨rfl, h5⟩
  rw [if_neg h5]
  by_cases h6 : b < 0xF0
  · rw [if_pos h6]; right; right; right; left; exact ⟨rfl, by omega, by omega⟩
  rw [if_neg h6]
  by_cases h7 : b = 0xF0
  · rw [if_pos h7]; right; right; right; right; right; left; exact ⟨rfl, h7⟩
  rw [if_neg h7]
  by_cases h8 : b < 0xF4
  · rw [if_pos h8]; right; right; right; right; right; right; left; exact ⟨rfl, by omega, by omega⟩
  rw [if_neg h8]
  by_cases h9 : b = 0xF4
  · rw [if_pos h9]; right; right; right; right; right; right; right; exact ⟨rfl, h9⟩
  rw [if_neg h9]; left; rfl

/-- The rune and width computed by `DecodeRuneInString` from the table entry
`x` of the first byte `b` and the next three bytes. -/
theorem DecodeRuneInString_cons (b0 : UInt8) (rest : GoString) :
    DecodeRuneInString (b0 :: rest) =
      if utf8First b0.toNat ≥ 0xF0 then
        (if utf8First b0.toNat = 0xF1 then RuneError else b0.toNat, 1)
      else if (b0 :: rest).length < utf8First b0.toNat % 8 then (RuneError, 1)
      else if ((b0 :: rest).getD 1 0).toNat < acceptLo (utf8First b0.toNat / 16) ∨
          acceptHi (utf8First b0.toNat / 16) < ((b0 :: rest).getD 1 0).toNat then (RuneError, 1)
      else if utf8First b0.toNat % 8 ≤ 2 then
        ((b0.toNat % 32) * 64 + ((b0 :: rest).getD 1 0).toNat % 64, 2)
      else if ((b0 :: rest).getD 2 0).toNat < 0x80 ∨ 0xBF < ((b0 :: rest).getD 2 0).toNat then
        (RuneError, 1)
      else if utf8First b0.toNat % 8 ≤ 3 then
        ((b0.toNat % 16) * 4096 + (((b0 :: rest).getD 1 0).toNat % 64) * 64 +
          ((b0 :: rest).getD 2 0).toNat % 64, 3)
      else if ((b0 :: rest).getD 3 0).toNat < 0x80 ∨ 0xBF < ((b0 :: rest).getD 3 0).toNat then
        (RuneError, 1)
      else
        ((b0.toNat % 8) * 262144 + (((b0 :: rest).getD 1 0).toNat % 64) * 4096 +
          (((b0 :: rest).getD 2 0).toNat % 64) * 64 + ((b0 :: rest).getD 3 0).toNat % 64, 4) :=
  rfl

theorem DecodeRuneInString_ge (b0 : UInt8) (rest : GoString) (h : b0.toNat ≥ 128) :
    (DecodeRuneInString (b0 :: rest)).1 ≥ 128 := by
  have hlt := UInt8.toNat_lt_size b0
  simp only [UInt8.size] at hlt
  rw [DecodeRuneInString_cons]
  generalize ((b0 :: rest).getD 1 0).toNat = s1
  generalize ((b0 :: rest).getD 2 0).toNat = s2
  generalize ((b0 :: rest).getD 3 0).toNat = s3
  generalize (b0 :: rest).length = len
  have hc := utf8First_cases b0.toNat h hlt
  generalize b0.toNat = b at *
  generalize utf8First b = x at *
  unfold RuneError
  rcases hc with hx | ⟨hx, hb⟩ | ⟨hx, hb⟩ | ⟨hx, hb⟩ | ⟨hx, hb⟩ | ⟨hx, hb⟩ | ⟨hx, hb⟩ | ⟨hx, hb⟩
  all_goals subst hx
  all_goals norm_num [acceptLo, acceptHi]
  all_goals (split_ifs <;> simp only [] <;> omega)

theorem lowerByte_toNat (c : UInt8) :
    (lowerByte c).toNat = if 65 ≤ c.toNat ∧ c.toNat ≤ 90 then c.toNat + 32 else c.toNat := by
  unfold lowerByte
  split_ifs with h
  · show (UInt8.ofNat (c.toNat + 32)).toNat = _
    have : (UInt8.ofNat (c.toNat + 32)).toNat = (c.toNat + 32) % 256 := rfl
    rw [this]
    omega
  · rfl

theorem orbitLoop_zero (U : Unicode) (sr tr r : Nat) : orbitLoop U sr tr 0 r = none := rfl

theorem orbitLoop_succ (U : Unicode) (sr tr n r : Nat) :
    orbitLoop U sr tr (n + 1) r =
      if r ≠ sr ∧ r < tr then orbitLoop U sr tr n (SimpleFold U r) else some r := rfl

theorem orbitLoop_plain (U : Unicode) (b hi fuel : Nat) (hf : 2 ≤ fuel)
    (hb1 : 97 ≤ b) (hb2 : b ≤ 122) (hk : b ≠ 107) (hs : b ≠ 115) (hhi : 128 ≤ hi) :
    orbitLoop U b hi fuel (SimpleFold U b) = some b := by
  obtain ⟨k, rfl⟩ : ∃ k, fuel = k + 2 := ⟨fuel - 2, by omega⟩
  have e1 : SimpleFold U b = b - 32 := by
    unfold SimpleFold asciiFold
    rw [if_neg (by omega), if_pos (by omega), if_neg (by omega), if_neg hk, if_neg hs,
      if_pos ⟨hb1, hb2⟩]
  have e2 : SimpleFold U (b - 32) = b := by
    unfold SimpleFold asciiFold
    rw [if_neg (by omega), if_pos (by omega), if_pos (by omega)]
    omega
  rw [e1, orbitLoop_succ, if_pos ⟨by omega, by omega⟩, e2, orbitLoop_succ,
    if_neg (by simp)]

theorem equalFoldUnicode_succ (U : Unicode) (fuel n : Nat) (c : UInt8) (cs : GoString)
    (t0 : UInt8) (trest : GoString) :
    equalFoldUnicode U fuel (n + 1) (c :: cs) (t0 :: trest) =
      if (if t0.toNat < RuneSelf then t0.toNat else (DecodeRuneInString (t0 :: trest)).1) =
          (DecodeRuneInString (c :: cs)).1 then
        equalFoldUnicode U fuel n ((c :: cs).drop (DecodeRuneInString (c :: cs)).2)
          (if t0.toNat < RuneSelf then trest
            else (t0 :: trest).drop (DecodeRuneInString (t0 :: trest)).2)
      else if max (DecodeRuneInString (c :: cs)).1
          (if t0.toNat < RuneSelf then t0.toNat else (DecodeRuneInString (t0 :: trest)).1)
            < RuneSelf then
        if upperLowerPair
            (min (DecodeRuneInString (c :: cs)).1
              (if t0.toNat < RuneSelf then t0.toNat else (DecodeRuneInString (t0 :: trest)).1))
            (max (DecodeRuneInString (c :: cs)).1
              (if t0.toNat < RuneSelf then t0.toNat else (DecodeRuneInString (t0 :: trest)).1))
        then
          equalFoldUnicode U fuel n ((c :: cs).drop (DecodeRuneInString (c :: cs)).2)
            (if t0.toNat < RuneSelf then trest
              else (t0 :: trest).drop (DecodeRuneInString (t0 :: trest)).2)
        else some false
      else
        match orbitLoop U
            (min (DecodeRuneInString (c :: cs)).1
              (if t0.toNat < RuneSelf then t0.toNat else (DecodeRuneInString (t0 :: trest)).1))
            (max (DecodeRuneInString (c :: cs)).1
              (if t0.toNat < RuneSelf then t0.toNat else (DecodeRuneInString (t0 :: trest)).1))
            fuel
            (SimpleFold U
              (min (DecodeRuneInString (c :: cs)).1
                (if t0.toNat < RuneSelf then t0.toNat
                  else (DecodeRuneInString (t0 :: trest)).1))) with
        | none => none
        | some r =>
          if r = max (DecodeRuneInString (c :: cs)).1
              (if t0.toNat < RuneSelf then t0.toNat else (DecodeRuneInString (t0 :: trest)).1)
          then
            equalFoldUnicode U fuel n ((c :: cs).drop (DecodeRuneInString (c :: cs)).2)
              (if t0.toNat < RuneSelf then trest
                else (t0 :: trest).drop (DecodeRuneInString (t0 :: trest)).2)
          else some false := rfl

/-- In the `hasUnicode` loop a non-ASCII rune of `s` never folds to a
lower-case ASCII letter other than `k` and `s`. -/
theorem equalFoldUnicode_plain (U : Unicode) (fuel n : Nat) (hf : 2 ≤ fuel) (c : UInt8)
    (cs : GoString) (b : UInt8) (t : GoString) (hc : c.toNat ≥ 128)
    (hb1 : 97 ≤ b.toNat) (hb2 : b.toNat ≤ 122) (hk : b.toNat ≠ 107) (hs : b.toNat ≠ 115) :
    equalFoldUnicode U fuel (n + 1) (c :: cs) (b :: t) = some false := by
  have hsr := DecodeRuneInString_ge c cs hc
  rw [equalFoldUnicode_succ]
  have hb : b.toNat < RuneSelf := by unfold RuneSelf; omega
  simp only [hb, if_true]
  generalize (DecodeRuneInString (c :: cs)).1 = sr at *
  rw [if_neg (by omega), if_neg (by unfold RuneSelf; omega), min_eq_right (by omega),
    max_eq_left (by omega), orbitLoop_plain U b.toNat sr fuel hf hb1 hb2 hk hs hsr]
  simp only []
  rw [if_neg (by omega)]


theorem equalFoldASCII_cons (sr : UInt8) (s : GoString) (tr : UInt8) (t : GoString) :
    equalFoldASCII (sr :: s) (tr :: t) =
      if sr.toNat ≥ RuneSelf ∨ tr.toNat ≥ RuneSelf then Sum.inr (sr :: s, tr :: t)
      else if tr = sr then equalFoldASCII s t
      else if upperLowerPair (min sr.toNat tr.toNat) (max sr.toNat tr.toNat) then
        equalFoldASCII s t
      else Sum.inl false := rfl

theorem EqualFold_cons (U : Unicode) (fuel : Nat) (sr : UInt8) (s : GoString) (tr : UInt8)
    (t : GoString) :
    EqualFold U fuel (sr :: s) (tr :: t) =
      if sr.toNat ≥ RuneSelf ∨ tr.toNat ≥ RuneSelf then
        equalFoldUnicode U fuel (s.length + 1) (sr :: s) (tr :: t)
      else if tr = sr then EqualFold U fuel s t
      else if upperLowerPair (min sr.toNat tr.toNat) (max sr.toNat tr.toNat) then
        EqualFold U fuel s t
      else some false := by
  unfold EqualFold
  rw [equalFoldASCII_cons]
  split_ifs <;> rfl

theorem EqualFold_nil_right (U : Unicode) (fuel : Nat) (s : GoString) :
    EqualFold U fuel s [] = some (decide (s = [])) := by
  cases s with
  | nil => rfl
  | cons c cs => rfl

theorem EqualFold_nil_left (U : Unicode) (fuel : Nat) (tr : UInt8) (t : GoString) :
    EqualFold U fuel [] (tr :: t) = some false := rfl

/-- `EqualFold(s, t)` for a `t` of lower-case ASCII letters other than `k` and
`s`: true exactly when `s`, lowered byte by byte, is `t`. -/
theorem EqualFold_plain (U : Unicode) (fuel : Nat) (hf : 2 ≤ fuel) (t : GoString)
    (ht : ∀ b ∈ t, 97 ≤ b.toNat ∧ b.toNat ≤ 122 ∧ b.toNat ≠ 107 ∧ b.toNat ≠ 115) :
    ∀ s : GoString, EqualFold U fuel s t = some (decide (s.map lowerByte = t)) := by
  induction t with
  | nil =>
    intro s
    rw [EqualFold_nil_right]
    cases s <;> simp
  | cons b t ih =>
    intro s
    obtain ⟨hb1, hb2, hk, hs⟩ := ht b (List.mem_cons_self _ _)
    have iht := ih (fun x hx => ht x (List.mem_cons_of_mem _ hx))
    cases s with
    | nil => rw [EqualFold_nil_left]; simp
    | cons c cs =>
      have hl := lowerByte_toNat c
      rw [EqualFold_cons]
      have hRS : RuneSelf = 128 := rfl
      rw [hRS]
      by_cases hc : c.toNat ≥ 128
      · rw [if_pos (Or.inl hc), equalFoldUnicode_plain U fuel _ hf c cs b t hc hb1 hb2 hk hs]
        have hne : lowerByte c ≠ b := by
          intro h
          rw [← h, hl, if_neg (by omega)] at hb2
          omega
        simp [hne]
      · rw [if_neg (by omega)]
        by_cases hbc : b = c
        · rw [if_pos hbc, iht cs]
          have hlc : lowerByte c = c := by
            apply UInt8.ext
            rw [hl, if_neg (by rw [← hbc]; omega)]
          simp [hlc, hbc]
        · rw [if_neg hbc]
          have hbc2 : b.toNat ≠ c.toNat := fun h => hbc (UInt8.ext h)
          by_cases hp : upperLowerPair (min c.toNat b.toNat) (max c.toNat b.toNat) = true
          · rw [if_pos hp, iht cs]
            simp only [upperLowerPair, decide_eq_true_eq] at hp
            have hlc : lowerByte c = b := by
              apply UInt8.ext
              rw [hl]
              rcases le_total c.toNat b.toNat with h | h
              · rw [min_eq_left h, max_eq_right h] at hp
                rw [if_pos ⟨hp.1, hp.2.1⟩]; omega
              · rw [min_eq_right h, max_eq_left h] at hp
                omega
            simp [hlc]
          · rw [if_neg hp]
            simp only [upperLowerPair, decide_eq_true_eq] at hp
            have hne : lowerByte c ≠ b := by
              intro h
              have h2 : (lowerByte c).toNat = b.toNat := by rw [h]
              rw [hl] at h2
              split_ifs at h2 with hu
              · apply hp
                rw [min_eq_left (by omega), max_eq_right (by omega)]
                exact ⟨hu.1, hu.2, by omega⟩
              · exact hbc2 h2.symm
            simp [hne]

theorem EqualFold_off (U : Unicode) (fuel : Nat) (hf : 2 ≤ fuel) (env : GoString) :
    EqualFold U fuel env (str "off") = some (equalsOff env) := by
  have h := EqualFold_plain U fuel hf (str "off") (by decide) env
  rw [h]
  rfl

/-- Every error return of `ParseDuration` carries the duration 0. -/
theorem ParseDuration_error_zero (U : Unicode) (s : GoString)
    (h : (ParseDuration U s).2 = true) : (ParseDuration U s).1 = 0 := by
  unfold ParseDuration at h ⊢
  simp only [] at h ⊢
  generalize (if s.head? = some 45 ∨ s.head? = some 43 then s.tail else s) = s1 at h ⊢
  by_cases h1 : s1 = str "0"
  · rw [if_pos h1]
  · rw [if_neg h1] at h ⊢
    by_cases h2 : s1 = []
    · rw [if_pos h2]
    · rw [if_neg h2] at h ⊢
      generalize parseDurationLoop U s1.length s1 0 = res at h ⊢
      rcases res with _ | d
      · rfl
      · simp only [] at h ⊢
        by_cases h3 : s.head? = some 45
        · rw [if_pos h3] at h
          exact absurd h (by simp)
        · rw [if_neg h3] at h ⊢
          by_cases h4 : d > pow63 - 1
          · rw [if_pos h4]
          · rw [if_neg h4] at h
            exact absurd h (by simp)

theorem getDataRefreshInterval_eq (U : Unicode) (fuel : Nat) (hf : 2 ≤ fuel) (env : GoString) :
    getDataRefreshInterval U fuel env =
      if equalsOff env = true then some 0
      else if (ParseDuration U env).1 > 0 then some (ParseDuration U env).1
      else some dataRefreshInterval := by
  unfold getDataRefreshInterval
  by_cases he : env = []
  · subst he
    rw [if_neg (by simp)]
    have h1 : equalsOff [] = false := by decide
    have h2 : (ParseDuration U []).1 = 0 := rfl
    rw [h1, h2]
    rfl
  · rw [if_pos he, EqualFold_off U fuel hf env]
    cases equalsOff env
    · rfl
    · rfl

theorem dataRefreshInterval_pos : 0 < dataRefreshInterval := by decide

/-- C11: with the 12 h default, `getDataRefreshInterval` returns 0 when `env`
equals `off` ignoring letter case, the parsed duration when `env` parses as a
strictly positive duration, and the default in every other case (empty,
unparseable, zero or negative); the result is never negative and is 0 only
for `off`. -/
theorem getDataRefreshInterval_spec (U : Unicode) (fuel : Nat) (hf : 2 ≤ fuel)
    (env : GoString) :
    dataRefreshInterval = 12 * 3600 * 1000000000 ∧
    (equalsOff env = true → getDataRefreshInterval U fuel env = some 0) ∧
    (equalsOff env = false → (ParseDuration U env).2 = false → 0 < (ParseDuration U env).1 →
      getDataRefreshInterval U fuel env = some (ParseDuration U env).1) ∧
    (equalsOff env = false →
      ((ParseDuration U env).2 = true ∨ (ParseDuration U env).1 ≤ 0) →
      getDataRefreshInterval U fuel env = some dataRefreshInterval) ∧
    (env = [] → getDataRefreshInterval U fuel env = some dataRefreshInterval) ∧
    (∃ v, getDataRefreshInterval U fuel env = some v ∧ 0 ≤ v ∧
      (v = 0 ↔ equalsOff env = true)) := by
  have hpos := dataRefreshInterval_pos
  have heq := getDataRefreshInterval_eq U fuel hf env
  refine ⟨by decide, ?_, ?_, ?_, ?_, ?_⟩
  · intro h
    rw [heq, if_pos h]
  · intro h _ hd
    rw [heq, if_neg (by simp [h]), if_pos hd]
  · intro h hc
    have hle : ¬ (ParseDuration U env).1 > 0 := by
      rcases hc with hc | hc
      · rw [ParseDuration_error_zero U env hc]; decide
      · omega
    rw [heq, if_neg (by simp [h]), if_neg hle]
  · intro h
    subst h
    rfl
  · rw [heq]
    by_cases hoff : equalsOff env = true
    · rw [if_pos hoff]
      exact ⟨0, rfl, le_refl _, by simp [hoff]⟩
    · rw [if_neg hoff]
      by_cases hd : (ParseDuration U env).1 > 0
      · rw [if_pos hd]
        exact ⟨_, rfl, by omega, by constructor <;> intro h <;> [omega; exact absurd h hoff]⟩
      · rw [if_neg hd]
        exact ⟨_, rfl, by omega, by constructor <;> intro h <;> [omega; exact absurd h hoff]⟩

theorem getDataRefreshInterval_spec_witness :
    getDataRefreshInterval plainUnicode 2 (str "OFF") = some 0 ∧
    getDataRefreshInterval plainUnicode 2 (str "1h30m") = some 5400000000000 ∧
    getDataRefreshInterval plainUnicode 2 (str "-5m") = some dataRefreshInterval ∧
    getDataRefreshInterval plainUnicode 2 (str "soon") = some dataRefreshInterval :=
  ⟨(getDataRefreshInterval_spec plainUnicode 2 (by decide) (str "OFF")).2.1 (by decide),
   ((getDataRefreshInterval_spec plainUnicode 2 (by decide) (str "1h30m")).2.2.1
      (by decide) (by decide) (by decide)).trans (by decide),
   (getDataRefreshInterval_spec plainUnicode 2 (by decide) (str "-5m")).2.2.2.1
      (by decide) (Or.inr (by decide)),
   (getDataRefreshInterval_spec plainUnicode 2 (by decide) (str "soon")).2.2.2.1
      (by decide) (Or.inl (by decide))⟩

theorem leadingInt_length (s : GoString) : ∀ (x v : Nat) (rem : GoString),
    leadingInt s x = some (v, rem) → rem.length ≤ s.length := by
  induction s with
  | nil =>
    intro x v rem h
    rw [leadingInt_nil] at h
    simp only [Option.some.injEq, Prod.mk.injEq] at h
    rw [← h.2]
  | cons c cs ih =>
    intro x v rem h
    rw [leadingInt_cons] at h
    split_ifs at h with h1 h2 h3
    · have := ih _ _ _ h
      simp only [List.length_cons]
      omega
    · simp only [Option.some.injEq, Prod.mk.injEq] at h
      rw [← h.2]

theorem leadingFraction_nil (x scale : Nat) (o : Bool) :
    leadingFraction [] x scale o = (x, scale, []) := rfl

theorem leadingFraction_cons (c : UInt8) (cs : GoString) (x scale : Nat) (o : Bool) :
    leadingFraction (c :: cs) x scale o =
      if isDigitByte c then
        if o then leadingFraction cs x scale o
        else if x > fractionCutoff then leadingFraction cs x scale true
        else if wrap64 (x * 10 + digitVal c) > pow63 then leadingFraction cs x scale true
        else leadingFraction cs (wrap64 (x * 10 + digitVal c)) (scale * 10) false
      else (x, scale, c :: cs) := rfl

theorem leadingFraction_length (s : GoString) : ∀ (x scale : Nat) (o : Bool),
    (leadingFraction s x scale o).2.2.length ≤ s.length := by
  induction s with
  | nil => intro x scale o; rw [leadingFraction_nil]
  | cons c cs ih =>
    intro x scale o
    rw [leadingFraction_cons]
    simp only [List.length_cons]
    split_ifs
    · have := ih x scale o; omega
    · have := ih x scale true; omega
    · have := ih x scale true; omega
    · have := ih (wrap64 (x * 10 + digitVal c)) (scale * 10) false; omega
    · simp

theorem durationFraction_length (s : GoString) : (durationFraction s).2.2.1.length ≤ s.length := by
  unfold durationFraction
  cases s with
  | nil => simp
  | cons c cs =>
    simp only []
    split_ifs
    · have := leadingFraction_length cs 0 1 false
      simp only [List.length_cons]
      omega
    · simp

/-- An iteration of the loop of `ParseDuration` that does not fail consumes at
least one byte. -/
theorem parseDurationStep_length (U : Unicode) (s : GoString) (d : Nat) (s3 : GoString)
    (d1 : Nat) (h : parseDurationStep U s d = some (s3, d1)) : s3.length < s.length := by
  unfold parseDurationStep at h
  split_ifs at h with h0
  rcases hl : leadingInt s 0 with _ | ⟨v, s1⟩
  · rw [hl] at h; simp at h
  · rw [hl] at h
    simp only [] at h
    have i1 := leadingInt_length s 0 v s1 hl
    have i2 := durationFraction_length s1
    generalize (durationFraction s1) = fr at h i2
    have i3 := List.takeWhile_append_dropWhile (fun b => decide (¬ isNumberByte b = true))
      fr.2.2.1
    have i4 := congrArg List.length i3
    rw [List.length_append] at i4
    by_cases h1 : ¬ decide (s.length ≠ s1.length) = true ∧ ¬ fr.2.2.2 = true
    · rw [if_pos h1] at h; simp at h
    · rw [if_neg h1] at h
      by_cases h2 : (List.takeWhile (fun b => decide (¬ isNumberByte b = true)) fr.2.2.1).length = 0
      · rw [if_pos h2] at h; simp at h
      · rw [if_neg h2] at h
        rcases hu : unitMap (List.takeWhile (fun b => decide (¬ isNumberByte b = true))
            fr.2.2.1) with _ | unit
        · rw [hu] at h; simp at h
        · rw [hu] at h
          simp only [] at h
          generalize (if fr.1 > 0 then wrap64 (wrap64 (v * unit) + U.fracNanos fr.1 unit fr.2.1)
            else wrap64 (v * unit)) = v2 at h
          by_cases h3 : v > pow63 / unit
          · rw [if_pos h3] at h; simp at h
          · rw [if_neg h3] at h
            by_cases h4 : fr.1 > 0 ∧ v2 > pow63
            · rw [if_pos h4] at h; simp at h
            · rw [if_neg h4] at h
              by_cases h5 : wrap64 (d + v2) > pow63
              · rw [if_pos h5] at h; simp at h
              · rw [if_neg h5] at h
                simp only [Option.some.injEq, Prod.mk.injEq] at h
                rw [← h.1]
                omega

theorem parseDurationLoop_nil (U : Unicode) (n d : Nat) : parseDurationLoop U n [] d = some d := by
  cases n <;> rfl

theorem parseDurationLoop_succ (U : Unicode) (n : Nat) (c : UInt8) (cs : GoString) (d : Nat) :
    parseDurationLoop U (n + 1) (c :: cs) d =
      match parseDurationStep U (c :: cs) d with
      | none => none
      | some (s3, d1) => parseDurationLoop U n s3 d1 := rfl

/-- The counter of the loop of `ParseDuration` never runs out when it starts at
the length of the string: any larger counter gives the same result. -/
theorem parseDurationLoop_counter (U : Unicode) : ∀ (n m : Nat) (s : GoString) (d : Nat),
    s.length ≤ n → s.length ≤ m → parseDurationLoop U n s d = parseDurationLoop U m s d := by
  intro n
  induction n with
  | zero =>
    intro m s d hn _
    have : s = [] := List.length_eq_zero.mp (by omega)
    subst this
    rw [parseDurationLoop_nil, parseDurationLoop_nil]
  | succ n ih =>
    intro m s d hn hm
    cases s with
    | nil => rw [parseDurationLoop_nil, parseDurationLoop_nil]
    | cons c cs =>
      obtain ⟨m1, rfl⟩ : ∃ m1, m = m1 + 1 := ⟨m - 1, by simp only [List.length_cons] at hm; omega⟩
      rw [parseDurationLoop_succ, parseDurationLoop_succ]
      rcases hs : parseDurationStep U (c :: cs) d with _ | ⟨s3, d1⟩
      · rfl
      · have hlen := parseDurationStep_length U _ _ _ _ hs
        simp only [List.length_cons] at hlen hn hm
        exact ih m1 s3 d1 (by omega) (by omega)

/-- With a counter of at least the length of the string, the loop of
`ParseDuration` fails only where an iteration fails. -/
theorem parseDurationLoop_none (U : Unicode) : ∀ (n : Nat) (s : GoString) (d : Nat),
    s.length ≤ n → parseDurationLoop U n s d = none →
    ∃ (s0 : GoString) (d0 : Nat), s0 ≠ [] ∧ parseDurationStep U s0 d0 = none := by
  intro n
  induction n with
  | zero =>
    intro s d hn h
    have : s = [] := List.length_eq_zero.mp (by omega)
    subst this
    rw [parseDurationLoop_nil] at h
    simp at h
  | succ n ih =>
    intro s d hn h
    cases s with
    | nil => rw [parseDurationLoop_nil] at h; simp at h
    | cons c cs =>
      rw [parseDurationLoop_succ] at h
      rcases hs : parseDurationStep U (c :: cs) d with _ | ⟨s3, d1⟩
      · exact ⟨c :: cs, d, by simp, hs⟩
      · rw [hs] at h
        have hlen := parseDurationStep_length U _ _ _ _ hs
        simp only [List.length_cons] at hlen hn
        exact ih s3 d1 (by omega) h

end server
